import Mathlib

/-!
Verification of the Polygon3 serialization and rendering-export subsystem
(`Polygon/IO.py`) against its specification.

Modelling conventions:
* A byte string is a `List Nat` (each entry a byte value).
* An IEEE-754 double is represented by its 64-bit pattern (a `Nat` below
  `2 ^ 64`): `struct.pack('!d', x)` writes exactly the 8 bytes of the bit
  pattern of `x` in big-endian order and `unpack` reads them back, so the
  byte-level codec is the identity on bit patterns ("bitwise equality").
* For the geometric exporters coordinates are modelled as rationals.
* Fallible Python operations (struct errors, assertions, ZeroDivisionError,
  IndexError, ...) are modelled with `Except`.
-/

set_option maxRecDepth 4096

namespace PolygonIO

/-- Contour of the polygon engine: an ordered point list tagged with a hole
flag.  Modelled from the spec: the engine (`cPolygon`) stores contours in
insertion order, each an ordered sequence of points with a boolean hole flag. -/
structure Contour (α : Type) where
  points : List (α × α)
  isHole : Bool
  deriving DecidableEq, Repr

/-- Polygon of the engine: ordered list of contours.  Modelled from the spec:
iteration, indexing and serialization all see contours in insertion order;
`addContour` appends. -/
abbrev Poly (α : Type) : Type := List (Contour α)

/-! ### Byte-level primitives (`struct.pack` / `struct.unpack`) -/

/-- Big-endian byte list of length `k` for the value `n` (used for the
in-range values `struct.pack` accepts). -/
def bytesBE : Nat → Nat → List Nat
  | 0, _ => []
  | k + 1, n => (n / 256 ^ k) % 256 :: bytesBE k (n % 256 ^ k)

/-- Value of a big-endian byte list. -/
def beVal (l : List Nat) : Nat := l.foldl (fun a b => a * 256 + b) 0

/-- Errors of the binary decoder. -/
inductive DecodeErr where
  | truncatedInput
  deriving DecidableEq, Repr

/-- Model of `__unpack`'s byte consumption: `unpack(f, b[:s])` raises
`struct.error` exactly when fewer than `s` bytes are available, otherwise it
consumes `s` bytes and leaves the rest (`return unpack(f, b[:s]), b[s:]`). -/
def unpackBytes (s : Nat) (b : List Nat) : Except DecodeErr (List Nat × List Nat) :=
  if s ≤ b.length then .ok (b.take s, b.drop s) else .error .truncatedInput

/-- Reading format `'!I'`: a big-endian unsigned 32-bit integer. -/
def unpackU32 (b : List Nat) : Except DecodeErr (Nat × List Nat) :=
  (unpackBytes 4 b).bind fun wr => .ok (beVal wr.1, wr.2)

/-- Reading format `'!l'`: a big-endian signed 32-bit integer
(two's complement). -/
def unpackI32 (b : List Nat) : Except DecodeErr (Int × List Nat) :=
  (unpackBytes 4 b).bind fun wr =>
    .ok (if beVal wr.1 < 2 ^ 31 then (beVal wr.1 : Int) else (beVal wr.1 : Int) - 2 ^ 32, wr.2)

/-- Split `8 * k` bytes into `k` big-endian 64-bit values. -/
def chunkDoubles : Nat → List Nat → List Nat
  | 0, _ => []
  | k + 1, w => beVal (w.take 8) :: chunkDoubles k (w.drop 8)

/-- Reading format `'!%dd' % s`: `s` big-endian doubles (bit patterns). -/
def unpackDoubles (s : Nat) (b : List Nat) : Except DecodeErr (List Nat × List Nat) :=
  (unpackBytes (8 * s) b).bind fun wr => .ok (chunkDoubles s wr.1, wr.2)

/-- Writing format `'!I'` for an in-range value (`pack` raises for values
outside `[0, 2^32)`; theorems stay in range). -/
def u32be (n : Nat) : List Nat := bytesBE 4 (n % 2 ^ 32)

/-- Writing format `'!l'`: two's complement big-endian. -/
def i32be (z : Int) : List Nat := bytesBE 4 ((z % (2 ^ 32)).toNat)

/-- Writing format `'!d'` for one double bit pattern. -/
def f64be (n : Nat) : List Nat := bytesBE 8 (n % 2 ^ 64)

/-! ### The binary codec (`encodeBinary` / `decodeBinary`) -/

/-- Model of `__flatten` applied to a contour's point list: the interleaved
coordinate stream `x0, y0, x1, y1, ...`. -/
def flattenPts {α : Type} (pts : List (α × α)) : List α :=
  pts.flatMap fun q => [q.1, q.2]

/-- Model of `__couples`: pair up consecutive entries of a flat list. -/
def couples {α : Type} : List α → List (α × α)
  | x :: y :: r => (x, y) :: couples r
  | _ => []

/-- Byte record of one contour, from `encodeBinary`'s loop body:
`pack('!l', len(c)*(1,-1)[p.isHole(i)])` followed by
`pack('!%dd' % (2*len(c)), *__flatten(c))`. -/
def contourBytes (c : Contour Nat) : List Nat :=
  i32be (if c.isHole then -(c.points.length : Int) else (c.points.length : Int))
    ++ (flattenPts c.points).flatMap f64be

/-- Model of `encodeBinary`: the leading `'!I'` contour count followed by the
contour records in order. -/
def encodeBinary (p : Poly Nat) : List Nat :=
  u32be p.length ++ p.flatMap contourBytes

/-- Contour-reading loop of `decodeBinary`: for each of `n` contours, read the
signed count, derive the hole flag and the double count `s`, read `s` doubles
and pair them into points. -/
def decodeContours : Nat → List Nat → Except DecodeErr (Poly Nat)
  | 0, _ => .ok []
  | n + 1, b =>
    (unpackI32 b).bind fun xb =>
      let hs : Bool × Nat :=
        if xb.1 < 0 then (true, (-2 * xb.1).toNat) else (false, (2 * xb.1).toNat)
      (unpackDoubles hs.2 xb.2).bind fun fb =>
        (decodeContours n fb.2).bind fun rest =>
          .ok (⟨couples fb.1, hs.1⟩ :: rest)

/-- Model of `decodeBinary`: read the `'!I'` contour count, then that many
contour records; trailing bytes are left unread. -/
def decodeBinary (b : List Nat) : Except DecodeErr (Poly Nat) :=
  (unpackU32 b).bind fun nb => decodeContours nb.1 nb.2

example : decodeBinary (encodeBinary [⟨[(1, 2), (3, 4), (5, 6)], false⟩, ⟨[(7, 8)], true⟩])
    = .ok [⟨[(1, 2), (3, 4), (5, 6)], false⟩, ⟨[(7, 8)], true⟩] := by rfl

example : decodeBinary ((encodeBinary [⟨[(1, 2), (3, 4), (5, 6)], false⟩]).take 51)
    = .error .truncatedInput := by rfl

/-! ### Codec lemmas -/

theorem bind_ok {ε α β : Type} (a : α) (f : α → Except ε β) :
    (Except.ok a : Except ε α).bind f = f a := rfl

theorem bind_error {ε α β : Type} (e : ε) (f : α → Except ε β) :
    (Except.error e : Except ε α).bind f = Except.error e := rfl

theorem length_bytesBE (k n : Nat) : (bytesBE k n).length = k := by
  induction k generalizing n with
  | zero => rfl
  | succ k ih => simp [bytesBE, ih]

theorem foldl_bytesBE (k n acc : Nat) (h : n < 256 ^ k) :
    (bytesBE k n).foldl (fun a b => a * 256 + b) acc = acc * 256 ^ k + n := by
  induction k generalizing n acc with
  | zero =>
    interval_cases n
    simp [bytesBE]
  | succ k ih =>
    have hpos : 0 < 256 ^ k := Nat.pos_pow_of_pos k (by norm_num)
    have hd : n / 256 ^ k < 256 := by
      apply Nat.div_lt_of_lt_mul
      rw [pow_succ] at h
      omega
    have hm : n % 256 ^ k < 256 ^ k := Nat.mod_lt _ hpos
    simp only [bytesBE, List.foldl_cons, Nat.mod_eq_of_lt hd, ih _ _ hm]
    have := Nat.div_add_mod n (256 ^ k)
    calc (acc * 256 + n / 256 ^ k) * 256 ^ k + n % 256 ^ k
        = acc * (256 ^ k * 256) + (256 ^ k * (n / 256 ^ k) + n % 256 ^ k) := by ring
      _ = acc * 256 ^ (k + 1) + n := by rw [this]; ring

theorem beVal_bytesBE (k n : Nat) (h : n < 256 ^ k) : beVal (bytesBE k n) = n := by
  simpa [beVal] using foldl_bytesBE k n 0 h

theorem unpackBytes_append (s : Nat) (w r : List Nat) (h : w.length = s) :
    unpackBytes s (w ++ r) = .ok (w, r) := by
  subst h
  simp [unpackBytes, List.take_left, List.drop_left]

theorem unpackU32_append (n : Nat) (r : List Nat) (h : n < 2 ^ 32) :
    unpackU32 (u32be n ++ r) = .ok (n, r) := by
  have h256 : n < 256 ^ 4 := by norm_num at h ⊢; omega
  rw [unpackU32, u32be, Nat.mod_eq_of_lt h]
  rw [unpackBytes_append 4 _ r (length_bytesBE 4 n), bind_ok]
  dsimp only
  rw [beVal_bytesBE 4 n h256]

theorem unpackI32_append (z : Int) (r : List Nat) (h1 : -(2 ^ 31) ≤ z) (h2 : z < 2 ^ 31) :
    unpackI32 (i32be z ++ r) = .ok (z, r) := by
  have h32 : ((2 : Int) ^ 32) = 4294967296 := by norm_num
  have h31 : ((2 : Int) ^ 31) = 2147483648 := by norm_num
  rw [h31] at h1 h2
  rw [unpackI32, i32be, h32]
  rw [unpackBytes_append 4 _ r (length_bytesBE 4 _), bind_ok]
  dsimp only
  have hz0 : (0 : Int) ≤ z % 4294967296 := Int.emod_nonneg z (by norm_num)
  have hzlt : z % 4294967296 < 4294967296 := Int.emod_lt_of_pos z (by norm_num)
  have hMval : (((z % 4294967296).toNat : Nat) : Int) = z % 4294967296 :=
    Int.toNat_of_nonneg hz0
  have hM256 : (z % 4294967296).toNat < 256 ^ 4 := by
    norm_num
    omega
  rw [beVal_bytesBE 4 _ hM256]
  rcases le_or_lt 0 z with hz | hz
  · have hlt : (z % 4294967296).toNat < 2 ^ 31 := by
      norm_num
      omega
    rw [if_pos hlt]
    have hmz : (((z % 4294967296).toNat : Nat) : Int) = z := by
      rw [hMval]
      omega
    rw [hmz]
  · have hge : ¬ (z % 4294967296).toNat < 2 ^ 31 := by
      norm_num
      omega
    rw [if_neg hge]
    have hmz : (((z % 4294967296).toNat : Nat) : Int) - 4294967296 = z := by
      rw [hMval]
      omega
    rw [hmz]

theorem beVal_f64be (x : Nat) (h : x < 2 ^ 64) : beVal (f64be x) = x := by
  rw [f64be, Nat.mod_eq_of_lt h]
  exact beVal_bytesBE 8 x (by norm_num at h ⊢; omega)

theorem length_f64be (x : Nat) : (f64be x).length = 8 := length_bytesBE 8 _

theorem length_flatMap_f64be (l : List Nat) : (l.flatMap f64be).length = 8 * l.length := by
  induction l with
  | nil => rfl
  | cons x r ih => simp [List.flatMap_cons, length_f64be, ih]; ring

theorem chunkDoubles_flatMap (l w : List Nat) (h : ∀ x ∈ l, x < 2 ^ 64) :
    chunkDoubles l.length (l.flatMap f64be ++ w) = l := by
  induction l generalizing w with
  | nil => rfl
  | cons x r ih =>
    have hx : x < 2 ^ 64 := h x (by simp)
    have hlen : (f64be x).length = 8 := length_f64be x
    simp only [List.length_cons, List.flatMap_cons, List.append_assoc, chunkDoubles]
    rw [List.take_append_of_le_length (by omega), List.drop_append_of_le_length (by omega)]
    rw [List.take_of_length_le (by omega), List.drop_eq_nil_of_le (by omega)]
    simp only [List.nil_append, beVal_f64be x hx]
    exact congrArg _ (ih w fun y hy => h y (by simp [hy]))

theorem unpackDoubles_append (l r : List Nat) (s : Nat) (hs : s = l.length)
    (h : ∀ x ∈ l, x < 2 ^ 64) :
    unpackDoubles s (l.flatMap f64be ++ r) = .ok (l, r) := by
  subst hs
  rw [unpackDoubles, unpackBytes_append (8 * l.length) _ r (length_flatMap_f64be l), bind_ok]
  dsimp only
  have hc := chunkDoubles_flatMap l [] h
  rw [List.append_nil] at hc
  rw [hc]

theorem couples_flattenPts {α : Type} (pts : List (α × α)) :
    couples (flattenPts pts) = pts := by
  induction pts with
  | nil => rfl
  | cons q r ih => simp [flattenPts, List.flatMap_cons, couples] at ih ⊢; exact ih

theorem length_flattenPts {α : Type} (pts : List (α × α)) :
    (flattenPts pts).length = 2 * pts.length := by
  induction pts with
  | nil => rfl
  | cons q r ih => simp [flattenPts, List.flatMap_cons] at ih ⊢; omega

theorem length_i32be (z : Int) : (i32be z).length = 4 := length_bytesBE 4 _

theorem length_contourBytes (c : Contour Nat) :
    (contourBytes c).length = 4 + 16 * c.points.length := by
  rw [contourBytes, List.length_append, length_i32be, length_flatMap_f64be,
    length_flattenPts]
  ring

/-- Decoding one well-formed contour record peels off exactly that contour. -/
theorem decodeContours_record (c : Contour Nat) (r : List Nat) (n : Nat)
    (h1 : c.points.length < 2 ^ 31) (h2 : c.points ≠ [])
    (h3 : ∀ q ∈ c.points, q.1 < 2 ^ 64 ∧ q.2 < 2 ^ 64) :
    decodeContours (n + 1) (contourBytes c ++ r)
      = (decodeContours n r).map (fun rest => c :: rest) := by
  obtain ⟨pts, hole⟩ := c
  simp only at h1 h2 h3
  have hco : ∀ x ∈ flattenPts pts, x < 2 ^ 64 := by
    intro x hx
    simp only [flattenPts, List.mem_flatMap] at hx
    obtain ⟨q, hq, hxq⟩ := hx
    have hq3 := h3 q hq
    simp only [List.mem_cons, List.not_mem_nil, or_false] at hxq
    rcases hxq with rfl | rfl
    · exact hq3.1
    · exact hq3.2
  have hpos : 0 < pts.length := List.length_pos.mpr h2
  cases hole with
  | true =>
    have hcb : contourBytes ⟨pts, true⟩
        = i32be (-(pts.length : Int)) ++ (flattenPts pts).flatMap f64be := rfl
    rw [hcb, List.append_assoc, decodeContours]
    rw [unpackI32_append _ _ (by norm_num; omega) (by norm_num; omega), bind_ok]
    dsimp only
    have hneg : (-(pts.length : Int) < 0) := by omega
    rw [if_pos hneg]
    dsimp only
    rw [unpackDoubles_append _ _ _ (by rw [length_flattenPts]; omega) hco, bind_ok]
    dsimp only
    rw [couples_flattenPts]
    cases hdec : decodeContours n r with
    | ok rest => rw [bind_ok]; rfl
    | error e => rw [bind_error]; rfl
  | false =>
    have hcb : contourBytes ⟨pts, false⟩
        = i32be ((pts.length : Int)) ++ (flattenPts pts).flatMap f64be := rfl
    rw [hcb, List.append_assoc, decodeContours]
    rw [unpackI32_append _ _ (by norm_num; omega) (by norm_num; omega), bind_ok]
    dsimp only
    have hnn : ¬ ((pts.length : Int) < 0) := by omega
    rw [if_neg hnn]
    dsimp only
    rw [unpackDoubles_append _ _ _ (by rw [length_flattenPts]; omega) hco, bind_ok]
    dsimp only
    rw [couples_flattenPts]
    cases hdec : decodeContours n r with
    | ok rest => rw [bind_ok]; rfl
    | error e => rw [bind_error]; rfl

/-- The contour loop of `decodeBinary` reconstructs the encoded contour list
and leaves any trailing bytes unread. -/
theorem decodeContours_encode (cs : Poly Nat) (t : List Nat)
    (h1 : ∀ c ∈ cs, c.points.length < 2 ^ 31)
    (h2 : ∀ c ∈ cs, c.points ≠ [])
    (h3 : ∀ c ∈ cs, ∀ q ∈ c.points, q.1 < 2 ^ 64 ∧ q.2 < 2 ^ 64) :
    decodeContours cs.length (cs.flatMap contourBytes ++ t) = .ok cs := by
  induction cs with
  | nil => rfl
  | cons c rest ih =>
    simp only [List.flatMap_cons, List.append_assoc, List.length_cons]
    rw [decodeContours_record c _ rest.length (h1 c (by simp)) (h2 c (by simp))
      (h3 c (by simp))]
    rw [ih (fun x hx => h1 x (by simp [hx])) (fun x hx => h2 x (by simp [hx]))
      (fun x hx => h3 x (by simp [hx]))]
    rfl

/-- Decode after encode, with arbitrary trailing bytes appended. -/
theorem decodeBinary_encodeBinary_append (p : Poly Nat) (t : List Nat)
    (hn : p.length < 2 ^ 32)
    (h1 : ∀ c ∈ p, c.points.length < 2 ^ 31)
    (h2 : ∀ c ∈ p, c.points ≠ [])
    (h3 : ∀ c ∈ p, ∀ q ∈ c.points, q.1 < 2 ^ 64 ∧ q.2 < 2 ^ 64) :
    decodeBinary (encodeBinary p ++ t) = .ok p := by
  rw [decodeBinary, encodeBinary, List.append_assoc, unpackU32_append _ _ hn, bind_ok]
  exact decodeContours_encode p t h1 h2 h3

/-! ### Truncation lemmas -/

theorem unpackBytes_short (s : Nat) (b : List Nat) (h : b.length < s) :
    unpackBytes s b = .error .truncatedInput := by
  rw [unpackBytes, if_neg (by omega)]

theorem unpackU32_short (b : List Nat) (h : b.length < 4) :
    unpackU32 b = .error .truncatedInput := by
  rw [unpackU32, unpackBytes_short 4 b h, bind_error]

theorem unpackI32_short (b : List Nat) (h : b.length < 4) :
    unpackI32 b = .error .truncatedInput := by
  rw [unpackI32, unpackBytes_short 4 b h, bind_error]

theorem unpackDoubles_short (s : Nat) (b : List Nat) (h : b.length < 8 * s) :
    unpackDoubles s b = .error .truncatedInput := by
  rw [unpackDoubles, unpackBytes_short _ b h, bind_error]

theorem map_error {ε α β : Type} (e : ε) (f : α → β) :
    (Except.error e : Except ε α).map f = .error e := rfl

/-- Any strict prefix of the contour-record byte stream makes the contour
loop of `decodeBinary` fail with `TruncatedInput`. -/
theorem decodeContours_take (cs : Poly Nat)
    (h1 : ∀ c ∈ cs, c.points.length < 2 ^ 31)
    (h2 : ∀ c ∈ cs, c.points ≠ [])
    (h3 : ∀ c ∈ cs, ∀ q ∈ c.points, q.1 < 2 ^ 64 ∧ q.2 < 2 ^ 64)
    (j : Nat) (hj : j < (cs.flatMap contourBytes).length) :
    decodeContours cs.length ((cs.flatMap contourBytes).take j)
      = .error .truncatedInput := by
  induction cs generalizing j with
  | nil => simp at hj
  | cons c rest ih =>
    have hcl : (contourBytes c).length = 4 + 16 * c.points.length := length_contourBytes c
    have hpos : 0 < c.points.length := List.length_pos.mpr (h2 c (by simp))
    have hlt31 : c.points.length < 2 ^ 31 := h1 c (by simp)
    rw [List.flatMap_cons] at hj ⊢
    rcases lt_or_ge j (contourBytes c).length with hjc | hjc
    · -- the first record itself is cut short
      rw [List.take_append_of_le_length (by omega)]
      rcases lt_or_ge j 4 with hj4 | hj4
      · -- even the signed count cannot be read
        have hshort : ((contourBytes c).take j).length < 4 := by
          rw [List.length_take]
          omega
        rw [List.length_cons, decodeContours, unpackI32_short _ hshort, bind_error]
      · -- the signed count reads fine but the doubles are cut short
        obtain ⟨pts, hole⟩ := c
        simp only at hcl hpos hlt31 hjc
        cases hole with
        | true =>
          have hcb : contourBytes ⟨pts, true⟩
              = i32be (-(pts.length : Int)) ++ (flattenPts pts).flatMap f64be := rfl
          rw [hcb, List.take_append_eq_append_take,
            List.take_of_length_le (by rw [length_i32be]; omega), length_i32be]
          rw [List.length_cons, decodeContours,
            unpackI32_append _ _ (by norm_num; omega) (by norm_num; omega), bind_ok]
          dsimp only
          have hneg : (-(pts.length : Int) < 0) := by omega
          rw [if_pos hneg]
          dsimp only
          rw [show (-2 * -(pts.length : Int)).toNat = 2 * pts.length from by omega]
          rw [unpackDoubles_short _ _ (by
            rw [List.length_take, length_flatMap_f64be, length_flattenPts]
            rw [hcb, List.length_append, length_i32be, length_flatMap_f64be,
              length_flattenPts] at hjc
            omega), bind_error]
        | false =>
          have hcb : contourBytes ⟨pts, false⟩
              = i32be ((pts.length : Int)) ++ (flattenPts pts).flatMap f64be := rfl
          rw [hcb, List.take_append_eq_append_take,
            List.take_of_length_le (by rw [length_i32be]; omega), length_i32be]
          rw [List.length_cons, decodeContours,
            unpackI32_append _ _ (by norm_num; omega) (by norm_num; omega), bind_ok]
          dsimp only
          have hnn : ¬ ((pts.length : Int) < 0) := by omega
          rw [if_neg hnn]
          dsimp only
          rw [show (2 * (pts.length : Int)).toNat = 2 * pts.length from by omega]
          rw [unpackDoubles_short _ _ (by
            rw [List.length_take, length_flatMap_f64be, length_flattenPts]
            rw [hcb, List.length_append, length_i32be, length_flatMap_f64be,
              length_flattenPts] at hjc
            omega), bind_error]
    · -- the first record is complete; recurse into the rest
      rw [List.take_append_eq_append_take, List.take_of_length_le (by omega)]
      rw [List.length_cons]
      rw [decodeContours_record c _ rest.length hlt31 (h2 c (by simp)) (h3 c (by simp))]
      rw [ih (fun x hx => h1 x (by simp [hx])) (fun x hx => h2 x (by simp [hx]))
        (fun x hx => h3 x (by simp [hx])) (j - (contourBytes c).length) (by
          rw [List.length_append] at hj
          omega)]
      rfl

/-! ### Claim theorems for the binary codec -/

/-- C1: for every polygon (with the data-model invariants: contour count and
point counts in `pack`'s accepted ranges, contours non-empty, coordinates
64-bit patterns), `decodeBinary (encodeBinary p)` yields a polygon with the
same contour count and, per contour in original order, the exact same point
sequence (bitwise-equal doubles) and the same hole flag — i.e. it yields `p`
itself. -/
theorem binary_roundtrip (p : Poly Nat)
    (hn : p.length < 2 ^ 32)
    (h1 : ∀ c ∈ p, c.points.length < 2 ^ 31)
    (h2 : ∀ c ∈ p, c.points ≠ [])
    (h3 : ∀ c ∈ p, ∀ q ∈ c.points, q.1 < 2 ^ 64 ∧ q.2 < 2 ^ 64) :
    decodeBinary (encodeBinary p) = .ok p := by
  have h := decodeBinary_encodeBinary_append p [] hn h1 h2 h3
  rwa [List.append_nil] at h

/-- Witness for C1 on a concrete two-contour polygon (a solid and a hole). -/
theorem binary_roundtrip_witness :
    decodeBinary (encodeBinary [⟨[(1, 2), (3, 4), (5, 6)], false⟩, ⟨[(7, 8)], true⟩])
      = .ok [⟨[(1, 2), (3, 4), (5, 6)], false⟩, ⟨[(7, 8)], true⟩] :=
  binary_roundtrip _ (by norm_num) (by decide) (by decide) (by decide)

/-- C3: for every polygon with at least one contour, decoding any strict
byte-prefix of `encodeBinary p` (every strict prefix cuts some record short)
fails with `TruncatedInput` rather than returning a polygon. -/
theorem decodeBinary_truncated (p : Poly Nat) (k : Nat)
    (hp : p ≠ [])
    (hn : p.length < 2 ^ 32)
    (h1 : ∀ c ∈ p, c.points.length < 2 ^ 31)
    (h2 : ∀ c ∈ p, c.points ≠ [])
    (h3 : ∀ c ∈ p, ∀ q ∈ c.points, q.1 < 2 ^ 64 ∧ q.2 < 2 ^ 64)
    (hk : k < (encodeBinary p).length) :
    decodeBinary ((encodeBinary p).take k) = .error .truncatedInput := by
  rw [encodeBinary] at hk ⊢
  have hu : (u32be p.length).length = 4 := length_bytesBE 4 _
  rcases lt_or_ge k 4 with hk4 | hk4
  · have hshort : ((u32be p.length ++ p.flatMap contourBytes).take k).length < 4 := by
      rw [List.length_take]
      omega
    rw [decodeBinary, unpackU32_short _ hshort, bind_error]
  · rw [List.take_append_eq_append_take, List.take_of_length_le (by omega), hu]
    rw [decodeBinary, unpackU32_append _ _ hn, bind_ok]
    dsimp only
    exact decodeContours_take p h1 h2 h3 (k - 4) (by
      rw [List.length_append, hu] at hk
      omega)

/-- Witness for C3: the claim's own example, a single-contour 3-point solid
polygon whose 56-byte encoding is truncated by one byte. -/
theorem decodeBinary_truncated_witness :
    decodeBinary ((encodeBinary [⟨[(1, 2), (3, 4), (5, 6)], false⟩]).take 55)
      = .error .truncatedInput :=
  decodeBinary_truncated _ 55 (by decide) (by norm_num) (by decide) (by decide)
    (by decide) (by decide)

/-- C9: `decodeBinary` consumes exactly the records declared by the leading
contour count and silently ignores trailing bytes: for every polygon `p` (with
the data-model invariants) and every byte string `t`,
`decodeBinary (encodeBinary p ++ t)` succeeds with `p` and equals
`decodeBinary (encodeBinary p)`. -/
theorem decodeBinary_trailing_garbage (p : Poly Nat) (t : List Nat)
    (hn : p.length < 2 ^ 32)
    (h1 : ∀ c ∈ p, c.points.length < 2 ^ 31)
    (h2 : ∀ c ∈ p, c.points ≠ [])
    (h3 : ∀ c ∈ p, ∀ q ∈ c.points, q.1 < 2 ^ 64 ∧ q.2 < 2 ^ 64) :
    decodeBinary (encodeBinary p ++ t) = .ok p
      ∧ decodeBinary (encodeBinary p) = .ok p := by
  refine ⟨decodeBinary_encodeBinary_append p t hn h1 h2 h3, ?_⟩
  have h := decodeBinary_encodeBinary_append p [] hn h1 h2 h3
  rwa [List.append_nil] at h

/-- Witness for C9 with two garbage bytes appended. -/
theorem decodeBinary_trailing_garbage_witness :
    decodeBinary (encodeBinary [⟨[(1, 2), (3, 4), (5, 6)], false⟩, ⟨[(7, 8)], true⟩]
        ++ [0, 255]) = .ok [⟨[(1, 2), (3, 4), (5, 6)], false⟩, ⟨[(7, 8)], true⟩]
      ∧ decodeBinary (encodeBinary [⟨[(1, 2), (3, 4), (5, 6)], false⟩, ⟨[(7, 8)], true⟩])
          = .ok [⟨[(1, 2), (3, 4), (5, 6)], false⟩, ⟨[(7, 8)], true⟩] :=
  decodeBinary_trailing_garbage _ [0, 255] (by norm_num) (by decide) (by decide)
    (by decide)

/-! ### The style cycler (`__RingBuffer`) -/

/-- Model of `__RingBuffer`: backing sequence `s`, cursor `i`, cached length
`l` (`self.s = seq; self.i = 0; self.l = len(seq)`). -/
structure RingBuffer (α : Type) where
  s : List α
  i : Nat
  l : Nat
  deriving DecidableEq, Repr

/-- Model of `__RingBuffer.__init__(seq)`. -/
def RingBuffer.ofSeq {α : Type} (seq : List α) : RingBuffer α := ⟨seq, 0, seq.length⟩

/-- Model of `__RingBuffer.__call__`: `o = self.s[self.i]` (an out-of-range
index raises IndexError, modelled as `none`), then the cursor advances and
wraps to 0 when it reaches `self.l`. -/
def RingBuffer.call {α : Type} (rb : RingBuffer α) : Option (α × RingBuffer α) :=
  (rb.s.get? rb.i).map fun o =>
    (o, ⟨rb.s, if rb.i + 1 = rb.l then 0 else rb.i + 1, rb.l⟩)

/-- Result of the n-th invocation (0-indexed) of a ring buffer: perform `n`
calls, then return the `n`-th call's result. -/
def RingBuffer.callN {α : Type} : Nat → RingBuffer α → Option (α × RingBuffer α)
  | 0, rb => rb.call
  | n + 1, rb => rb.call.bind fun ora => RingBuffer.callN n ora.2

theorem obind_some {α β : Type} (a : α) (f : α → Option β) :
    (some a).bind f = f a := rfl

theorem RingBuffer.callN_from {α : Type} (seq : List α) (hne : seq ≠ [])
    (n : Nat) : ∀ (i : Nat), i < seq.length →
    RingBuffer.callN n ⟨seq, i, seq.length⟩
      = some (seq.get ⟨(i + n) % seq.length, Nat.mod_lt _ (List.length_pos.mpr hne)⟩,
              ⟨seq, (i + n + 1) % seq.length, seq.length⟩) := by
  induction n with
  | zero =>
    intro i hi
    simp only [RingBuffer.callN, RingBuffer.call, List.get?_eq_get hi, Option.map_some']
    have e1 : (i + 0) % seq.length = i := by
      rw [Nat.add_zero]
      exact Nat.mod_eq_of_lt hi
    by_cases hc : i + 1 = seq.length
    · have e2 : (i + 0 + 1) % seq.length = 0 := by
        rw [Nat.add_zero, hc, Nat.mod_self]
      simp only [e1, e2, if_pos hc]
    · have hi1 : i + 1 < seq.length := by
        have := hi
        omega
      have e2 : (i + 0 + 1) % seq.length = i + 1 := by
        rw [Nat.add_zero]
        exact Nat.mod_eq_of_lt hi1
      simp only [e1, e2, if_neg hc]
  | succ n ih =>
    intro i hi
    simp only [RingBuffer.callN, RingBuffer.call, List.get?_eq_get hi, Option.map_some',
      obind_some]
    by_cases hc : i + 1 = seq.length
    · rw [if_pos hc]
      rw [ih 0 (List.length_pos.mpr hne)]
      have e1 : (0 + n) % seq.length = (i + (n + 1)) % seq.length := by
        rw [Nat.zero_add, show i + (n + 1) = seq.length + n from by omega,
          Nat.add_mod_left]
      have e2 : (0 + n + 1) % seq.length = (i + (n + 1) + 1) % seq.length := by
        rw [Nat.zero_add, show i + (n + 1) + 1 = seq.length + (n + 1) from by omega,
          Nat.add_mod_left]
      simp only [e1, e2]
    · rw [if_neg hc]
      have hi1 : i + 1 < seq.length := by
        have := hi
        omega
      rw [ih (i + 1) hi1]
      have e1 : i + 1 + n = i + (n + 1) := by omega
      simp only [e1]

/-- C8: for every non-empty backing sequence and every `n ≥ 0`, the n-th
invocation of a style cycler built from `seq` returns `seq[n mod len(seq)]`,
and the backing sequence is never mutated (the resulting state still carries
`seq`, with the cursor at `(n+1) mod len(seq)`). -/
theorem ringBuffer_cycles {α : Type} (seq : List α) (hne : seq ≠ []) (n : Nat) :
    RingBuffer.callN n (RingBuffer.ofSeq seq)
      = some (seq.get ⟨n % seq.length, Nat.mod_lt _ (List.length_pos.mpr hne)⟩,
              ⟨seq, (n + 1) % seq.length, seq.length⟩) := by
  have h := RingBuffer.callN_from seq hne n 0 (List.length_pos.mpr hne)
  simpa using h

/-- Witness for C8: the 5th call (n = 4) on a cycler over `[10, 20, 30]`
returns the second element, with the backing sequence intact. -/
theorem ringBuffer_cycles_witness :
    RingBuffer.callN 4 (RingBuffer.ofSeq [10, 20, 30])
      = some (20, ⟨[10, 20, 30], 2, 3⟩) :=
  (ringBuffer_cycles [10, 20, 30] (by decide) 4).trans (by rfl)

/-! ### Stream resolution and the gnuplot triangle writer -/

/-- Output token of the gnuplot writers: one formatted triangle block
(`'%g %g \n %g %g \n %g %g \n %g %g\n\n'`, the fourth point repeating the
first) or a blank separator line. -/
inductive OutTok where
  | tri (a b c : ℚ × ℚ)
  | blank
  deriving DecidableEq, Repr

/-- Writable stream state: written tokens plus a closed flag. The `'%g'`
textual formatting is abstracted into structured tokens; the claims concern
writes and closing only. -/
structure WStream where
  toks : List OutTok
  closed : Bool
  deriving DecidableEq, Repr

def WStream.write (f : WStream) (t : OutTok) : WStream := ⟨f.toks ++ [t], f.closed⟩

def WStream.close (f : WStream) : WStream := ⟨f.toks, true⟩

/-- Argument shapes accepted by the writers: `None`, a filename, or an open
file-like object. -/
inductive OFile where
  | none
  | path (name : String)
  | stream (f : WStream)

/-- Model of `getWritableObject`: `None` yields a fresh in-memory buffer, not
owned; a string opens a file for writing, owned; a file-like object is
adopted, not owned ("it is assumed that this object will be closed by the
code that created it"). -/
def getWritableObject : OFile → WStream × Bool
  | .none => (⟨[], false⟩, false)
  | .path _ => (⟨[], false⟩, true)
  | .stream f => (f, false)

/-- Inner loop of `writeGnuplotTriangles` over one triangle strip `vl`:
`for j in range(len(vl)-2)` writes a triangle block, then one blank line. -/
def writeStrip (f : WStream) (vl : List (ℚ × ℚ)) : WStream :=
  ((List.range (vl.length - 2)).foldl (fun g j =>
      g.write (.tri (vl.getD j (0, 0)) (vl.getD (j + 1) (0, 0)) (vl.getD (j + 2) (0, 0))))
    f).write .blank

/-- Model of `writeGnuplotTriangles`: resolve the output stream, write all
triangle strips of all polygons (the `triStrip()` results are passed in, the
triangulation being the external engine's), then `if cl: f.close()` followed
by the unconditional `f.close()` of the source. -/
def writeGnuplotTriangles (ofile : OFile) (polyStrips : List (List (List (ℚ × ℚ)))) :
    WStream :=
  let fc := getWritableObject ofile
  let f1 := polyStrips.foldl (fun g strips => strips.foldl writeStrip g) fc.1
  let f2 := if fc.2 then f1.close else f1
  f2.close

/-- C2 (code-bug evidence): `getWritableObject` marks a caller-supplied stream
as not owned, yet `writeGnuplotTriangles` leaves every stream closed — its
trailing unconditional `f.close()` closes even unowned streams, contradicting
the close-iff-owned contract. -/
theorem writeGnuplotTriangles_closes_unowned :
    (getWritableObject (.stream ⟨[], false⟩)).2 = false
      ∧ (writeGnuplotTriangles (.stream ⟨[], false⟩) []).closed = true :=
  ⟨rfl, rfl⟩

/-! ### XML reading (`readXML`)

The document is modelled after parsing: `getElementsByTagName('polygon')`
yields a list of polygon elements (attributes plus child nodes); non-element
child nodes (text, comments) appear as `XNode.other`.  `minidom` and the
parse step are the external XML library.  Python's `int()`/`float()` are
modelled on plain decimal literals (the forms `writeXML` emits); whitespace,
underscores, exponents and inf/nan are omitted. -/

/-- A DOM child node: an element with tag, attributes and children, or a
non-element node (skipped by the reader's `nodeType` tests). -/
inductive XNode where
  | element (tag : String) (attrs : List (String × String)) (children : List XNode)
  | other

/-- One element returned by `getElementsByTagName('polygon')`. -/
structure PolyElem where
  attrs : List (String × String)
  children : List XNode

/-- Model of `minidom`'s `getAttribute`: the attribute value, or `""` when
absent. -/
def getAttr (attrs : List (String × String)) (name : String) : String :=
  match attrs.lookup name with
  | some v => v
  | none => ""

/-- Errors raised by `readXML`: the `assert` statements (the structural
mismatch checks and the tag check) raise AssertionError; `int()`/`float()` on
unparsable text raise ValueError. -/
inductive ReadErr where
  | assertionError
  | valueError
  deriving DecidableEq, Repr

def allDigits (cs : List Char) : Bool := cs.all Char.isDigit

def digitsNum (cs : List Char) : Nat :=
  cs.foldl (fun a c => 10 * a + (c.toNat - 48)) 0

/-- Magnitude part of Python's `int()` on a decimal literal. -/
def pyIntMag (cs : List Char) : Option Nat :=
  if allDigits cs ∧ cs ≠ [] then some (digitsNum cs) else none

/-- Model of Python's `int()` on plain decimal literals. -/
def pyInt (s : String) : Option Int :=
  match s.toList with
  | '-' :: r => (pyIntMag r).map fun n => -(n : Int)
  | '+' :: r => (pyIntMag r).map fun n => (n : Int)
  | r => (pyIntMag r).map fun n => (n : Int)

/-- Magnitude part of Python's `float()` on a decimal literal: `digits`,
`digits.digits`, `.digits` or `digits.`, at least one digit in total. -/
def pyFloatMag (cs : List Char) : Option ℚ :=
  match cs.splitOn '.' with
  | [a] => if allDigits a ∧ a ≠ [] then some ((digitsNum a : ℚ)) else none
  | [a, b] =>
    if allDigits a ∧ allDigits b ∧ (a ≠ [] ∨ b ≠ []) then
      some ((digitsNum a : ℚ) + (digitsNum b : ℚ) / (10 : ℚ) ^ b.length)
    else none
  | _ => none

/-- Model of Python's `float()` on plain decimal literals. -/
def pyFloat (s : String) : Option ℚ :=
  match s.toList with
  | '-' :: r => (pyFloatMag r).map Neg.neg
  | '+' :: r => pyFloatMag r
  | r => pyFloatMag r

/-- A parse result, or the ValueError that `int()`/`float()` raise on
unparsable text. -/
def orValueError {α : Type} : Option α → Except ReadErr α
  | some a => .ok a
  | none => .error .valueError

/-- One point from a contour's element child:
`(float(pon.getAttribute('x')), float(pon.getAttribute('y')))`.  Note the
source reads every element child this way, whatever its tag. -/
def readPoint (attrs : List (String × String)) : Except ReadErr (ℚ × ℚ) :=
  (orValueError (pyFloat (getAttr attrs "x"))).bind fun x =>
    (orValueError (pyFloat (getAttr attrs "y"))).bind fun y => .ok (x, y)

/-- The point-collecting loop over a contour's children: non-element nodes
are skipped, every element child is read as a point. -/
def readPoints : List XNode → Except ReadErr (List (ℚ × ℚ))
  | [] => .ok []
  | .other :: rest => readPoints rest
  | .element _ attrs _ :: rest =>
    (readPoint attrs).bind fun q =>
      (readPoints rest).bind fun r => .ok (q :: r)

/-- The contour loop over a polygon element's children: non-element nodes are
skipped; an element child must be tagged `contour` (`assert`); its points are
collected, the declared `points` attribute is asserted equal to the number of
points read, and the contour is added with the declared `isHole` flag. -/
def readContours : List XNode → Except ReadErr (Poly ℚ)
  | [] => .ok []
  | .other :: rest => readContours rest
  | .element tag attrs children :: rest =>
    if tag = "contour" then
      (readPoints children).bind fun polist =>
        (orValueError (pyInt (getAttr attrs "points"))).bind fun k =>
          if k = (polist.length : Int) then
            (orValueError (pyInt (getAttr attrs "isHole"))).bind fun h =>
              (readContours rest).bind fun cs =>
                .ok (⟨polist, h != 0⟩ :: cs)
          else .error .assertionError
    else .error .assertionError

/-- One polygon element: read its contours, then assert the declared
`contours` attribute equals the number of contours read. -/
def readPolyElem (pn : PolyElem) : Except ReadErr (Poly ℚ) :=
  (readContours pn.children).bind fun cs =>
    (orValueError (pyInt (getAttr pn.attrs "contours"))).bind fun k =>
      if k = (cs.length : Int) then .ok cs else .error .assertionError

/-- Model of `readXML` on the parsed polygon elements. -/
def readXML : List PolyElem → Except ReadErr (List (Poly ℚ))
  | [] => .ok []
  | pn :: rest =>
    (readPolyElem pn).bind fun p =>
      (readXML rest).bind fun ps => .ok (p :: ps)

/-- Number of element children (the children `readPoints`/`readContours`
actually processes). -/
def numElems (ns : List XNode) : Nat :=
  ns.countP fun n =>
    match n with
    | .element _ _ _ => true
    | .other => false

/-- Number of element children carrying a given tag. -/
def countTag (tag : String) (ns : List XNode) : Nat :=
  ns.countP fun n =>
    match n with
    | .element t _ _ => t = tag
    | .other => false

/-- Whether some polygon element has an element child not tagged `contour`. -/
def XNode.isForeign : XNode → Bool
  | .element tag _ _ => tag != "contour"
  | .other => false

def hasForeignChild (d : List PolyElem) : Bool :=
  d.any fun pn => pn.children.any XNode.isForeign

/-! ### XML claim lemmas -/

theorem orValueError_some {α : Type} (a : α) : orValueError (some a) = .ok a := rfl

theorem orValueError_none {α : Type} :
    (orValueError (none : Option α)) = .error .valueError := rfl

theorem numElems_nil : numElems [] = 0 := rfl

theorem numElems_other (rest : List XNode) :
    numElems (.other :: rest) = numElems rest := by
  simp [numElems, List.countP_cons]

theorem numElems_element (tag : String) (attrs : List (String × String))
    (ch rest : List XNode) :
    numElems (.element tag attrs ch :: rest) = numElems rest + 1 := by
  simp [numElems, List.countP_cons]

theorem readPoints_length (ns : List XNode) (polist : List (ℚ × ℚ))
    (h : readPoints ns = .ok polist) : polist.length = numElems ns := by
  induction ns generalizing polist with
  | nil =>
    rw [readPoints] at h
    cases h
    rfl
  | cons n rest ih =>
    cases n with
    | other =>
      rw [readPoints] at h
      rw [numElems_other]
      exact ih polist h
    | element tag attrs ch =>
      rw [readPoints] at h
      cases hq : readPoint attrs with
      | error e => rw [hq, bind_error] at h; cases h
      | ok q =>
        rw [hq, bind_ok] at h
        cases hr : readPoints rest with
        | error e => rw [hr, bind_error] at h; cases h
        | ok r =>
          rw [hr, bind_ok] at h
          cases h
          rw [numElems_element]
          simp [ih r hr]

/-- Inversion for a successful contour loop: the read contour count equals the
number of element children, every element child is tagged `contour`, and every
contour's declared `points` attribute parses to its number of element
children. -/
theorem readContours_ok (ns : List XNode) (cs : Poly ℚ)
    (h : readContours ns = .ok cs) :
    cs.length = numElems ns ∧
      ∀ c ∈ ns, ∀ tag attrs ch, c = .element tag attrs ch →
        tag = "contour" ∧ pyInt (getAttr attrs "points") = some ((numElems ch : Nat) : Int) := by
  induction ns generalizing cs with
  | nil =>
    rw [readContours] at h
    cases h
    exact ⟨rfl, by simp⟩
  | cons n rest ih =>
    cases n with
    | other =>
      rw [readContours] at h
      obtain ⟨h1, h2⟩ := ih cs h
      refine ⟨by rw [numElems_other]; exact h1, ?_⟩
      intro c hc tag attrs ch hce
      rcases List.mem_cons.mp hc with rfl | hc2
      · cases hce
      · exact h2 c hc2 tag attrs ch hce
    | element tag0 attrs0 ch0 =>
      rw [readContours] at h
      by_cases ht : tag0 = "contour"
      case neg => rw [if_neg ht] at h; cases h
      rw [if_pos ht] at h
      cases hp : readPoints ch0 with
      | error e => rw [hp, bind_error] at h; cases h
      | ok polist =>
        rw [hp, bind_ok] at h
        cases hk : pyInt (getAttr attrs0 "points") with
        | none => rw [hk, orValueError_none, bind_error] at h; cases h
        | some k =>
          rw [hk, orValueError_some, bind_ok] at h
          by_cases hke : k = (polist.length : Int)
          case neg => rw [if_neg hke] at h; cases h
          rw [if_pos hke] at h
          cases hh : pyInt (getAttr attrs0 "isHole") with
          | none => rw [hh, orValueError_none, bind_error] at h; cases h
          | some hv =>
            rw [hh, orValueError_some, bind_ok] at h
            cases hr : readContours rest with
            | error e => rw [hr, bind_error] at h; cases h
            | ok cs2 =>
              rw [hr, bind_ok] at h
              cases h
              obtain ⟨h1, h2⟩ := ih cs2 hr
              constructor
              · rw [numElems_element]
                simp [h1]
              · intro c hc tag attrs ch hce
                rcases List.mem_cons.mp hc with rfl | hc2
                · cases hce
                  refine ⟨ht, ?_⟩
                  rw [hk, hke, readPoints_length ch0 polist hp]
                · exact h2 c hc2 tag attrs ch hce

/-- Inversion for a successful polygon element: the contour loop succeeded
and the declared `contours` attribute parses to the contour count. -/
theorem readPolyElem_ok (pn : PolyElem) (p : Poly ℚ)
    (h : readPolyElem pn = .ok p) :
    readContours pn.children = .ok p
      ∧ pyInt (getAttr pn.attrs "contours") = some ((p.length : Nat) : Int) := by
  rw [readPolyElem] at h
  cases hc : readContours pn.children with
  | error e => rw [hc, bind_error] at h; cases h
  | ok cs =>
    rw [hc, bind_ok] at h
    cases hk : pyInt (getAttr pn.attrs "contours") with
    | none => rw [hk, orValueError_none, bind_error] at h; cases h
    | some k =>
      rw [hk, orValueError_some, bind_ok] at h
      by_cases hke : k = (cs.length : Int)
      case neg => rw [if_neg hke] at h; cases h
      rw [if_pos hke] at h
      cases h
      exact ⟨rfl, by rw [hke]⟩

theorem readXML_ok_mem (d : List PolyElem) (ps : List (Poly ℚ))
    (h : readXML d = .ok ps) :
    ∀ pn ∈ d, ∃ p, readPolyElem pn = .ok p := by
  induction d generalizing ps with
  | nil => simp
  | cons pn rest ih =>
    rw [readXML] at h
    cases hq : readPolyElem pn with
    | error e => rw [hq, bind_error] at h; cases h
    | ok p =>
      rw [hq, bind_ok] at h
      cases hr : readXML rest with
      | error e => rw [hr, bind_error] at h; cases h
      | ok ps2 =>
        intro x hx
        rcases List.mem_cons.mp hx with rfl | hx2
        · exact ⟨p, hq⟩
        · exact ih ps2 hr x hx2

theorem readContours_foreign (ns : List XNode) (hf : ns.any XNode.isForeign = true) :
    ∀ cs, readContours ns ≠ .ok cs := by
  induction ns with
  | nil => simp at hf
  | cons n rest ih =>
    intro cs h
    cases n with
    | other =>
      rw [readContours] at h
      have hf2 : rest.any XNode.isForeign = true := by
        simpa [XNode.isForeign] using hf
      exact ih hf2 cs h
    | element tag attrs ch =>
      rw [readContours] at h
      by_cases ht : tag = "contour"
      · rw [if_pos ht] at h
        have hf2 : rest.any XNode.isForeign = true := by
          simpa [List.any_cons, XNode.isForeign, ht] using hf
        cases hp : readPoints ch with
        | error e => rw [hp, bind_error] at h; cases h
        | ok polist =>
          rw [hp, bind_ok] at h
          cases hk : pyInt (getAttr attrs "points") with
          | none => rw [hk, orValueError_none, bind_error] at h; cases h
          | some k =>
            rw [hk, orValueError_some, bind_ok] at h
            by_cases hke : k = (polist.length : Int)
            case neg => rw [if_neg hke] at h; cases h
            rw [if_pos hke] at h
            cases hh : pyInt (getAttr attrs "isHole") with
            | none => rw [hh, orValueError_none, bind_error] at h; cases h
            | some hv =>
              rw [hh, orValueError_some, bind_ok] at h
              cases hr : readContours rest with
              | error e => rw [hr, bind_error] at h; cases h
              | ok cs2 => exact ih hf2 cs2 hr
      · rw [if_neg ht] at h
        cases h

theorem readPolyElem_foreign (pn : PolyElem)
    (hf : pn.children.any XNode.isForeign = true) :
    ∀ p, readPolyElem pn ≠ .ok p := by
  intro p h
  rw [readPolyElem] at h
  cases hc : readContours pn.children with
  | error e => rw [hc, bind_error] at h; cases h
  | ok cs => exact readContours_foreign _ hf cs hc

theorem readXML_foreign (d : List PolyElem) (hf : hasForeignChild d = true) :
    ∀ ps, readXML d ≠ .ok ps := by
  induction d with
  | nil => simp [hasForeignChild] at hf
  | cons pn rest ih =>
    intro ps h
    rw [readXML] at h
    rw [hasForeignChild, List.any_cons] at hf
    rcases Bool.or_eq_true_iff.mp hf with hf1 | hf2
    · cases hq : readPolyElem pn with
      | error e => rw [hq, bind_error] at h; cases h
      | ok p => exact readPolyElem_foreign pn hf1 p hq
    · cases hq : readPolyElem pn with
      | error e => rw [hq, bind_error] at h; cases h
      | ok p =>
        rw [hq, bind_ok] at h
        cases hr : readXML rest with
        | error e => rw [hr, bind_error] at h; cases h
        | ok ps2 => exact ih hf2 ps2 hr

/-- C10: `readXML` skips only non-element child nodes of a `<polygon>`; any
element child not named `contour` (for example `<foo/>`) trips the
`assert sn.tagName == 'contour'`, so no document containing a foreign element
inside `<polygon>` is ever accepted — and on the minimal such document the
failure is the assertion error itself. -/
theorem readXML_rejects_foreign :
    (∀ d : List PolyElem, hasForeignChild d = true → (readXML d).isOk = false)
      ∧ readXML [⟨[("contours", "1")], [.element "foo" [] []]⟩]
          = .error .assertionError := by
  constructor
  · intro d hf
    cases hx : readXML d with
    | ok ps => exact absurd hx (readXML_foreign d hf ps)
    | error e => rfl
  · rfl

/-- Witness for C10 on the minimal foreign-element document. -/
theorem readXML_rejects_foreign_witness :
    hasForeignChild [⟨[("contours", "1")], [.element "foo" [] []]⟩] = true
      ∧ (readXML [⟨[("contours", "1")], [.element "foo" [] []]⟩]).isOk = false :=
  ⟨rfl, readXML_rejects_foreign.1 _ rfl⟩

/-- C4 counterexample: a document whose single contour declares
`points="3"` but holds only 2 `<p>` children — the third element child is a
foreign-tagged `<q>` with numeric coordinates — is accepted by `readXML`
(returning a 3-point contour), because the reader counts and reads every
element child as a point, not only `<p>`-tagged ones.  So "declared points
equals the number of `<p>` children" does not hold for every accepted
document, and this mismatch does not fail with StructuralMismatch. -/
theorem readXML_accepts_p_count_mismatch :
    readXML [⟨[("contours", "1")],
        [.element "contour" [("points", "3"), ("isHole", "0")]
          [.element "p" [("x", "0"), ("y", "0")] [],
           .element "p" [("x", "1"), ("y", "0")] [],
           .element "q" [("x", "0"), ("y", "1")] []]]⟩]
      = .ok [[⟨[(0, 0), (1, 0), (0, 1)], false⟩]]
      ∧ countTag "p" [.element "p" [("x", "0"), ("y", "0")] [],
           .element "p" [("x", "1"), ("y", "0")] [],
           .element "q" [("x", "0"), ("y", "1")] []] = 2
      ∧ pyInt "3" = some 3 := by
  refine ⟨by rfl, by rfl, by rfl⟩

/-- C4 (amended): the structural checks of `readXML` count element children of
any tag: a document is accepted only if each polygon's declared `contours`
attribute parses to the number of its element children (each necessarily
tagged `contour`) and each contour's declared `points` attribute parses to
the number of its element children (each read as a point, whatever its tag);
the spec's example — a contour declaring `points="3"` with only 2 `<p>`
children and no other element child — fails with the StructuralMismatch
assertion. -/
theorem readXML_structural_check :
    (∀ (d : List PolyElem) (ps : List (Poly ℚ)), readXML d = .ok ps →
        ∀ pn ∈ d,
          pyInt (getAttr pn.attrs "contours") = some ((numElems pn.children : Nat) : Int)
            ∧ ∀ c ∈ pn.children, ∀ tag attrs ch, c = .element tag attrs ch →
                tag = "contour"
                  ∧ pyInt (getAttr attrs "points") = some ((numElems ch : Nat) : Int))
      ∧ readXML [⟨[("contours", "1")],
            [.element "contour" [("points", "3"), ("isHole", "0")]
              [.element "p" [("x", "0"), ("y", "0")] [],
               .element "p" [("x", "1"), ("y", "0")] []]]⟩]
          = .error .assertionError := by
  constructor
  · intro d ps h pn hpn
    obtain ⟨p, hp⟩ := readXML_ok_mem d ps h pn hpn
    obtain ⟨hc, hcount⟩ := readPolyElem_ok pn p hp
    obtain ⟨hlen, hchild⟩ := readContours_ok pn.children p hc
    exact ⟨by rw [hcount, hlen], hchild⟩
  · rfl

/-- Witness for C4's amended theorem on a concrete accepted document. -/
theorem readXML_structural_check_witness :
    readXML [⟨[("contours", "1")],
        [.element "contour" [("points", "1"), ("isHole", "0")]
          [.element "p" [("x", "2"), ("y", "3")] []]]⟩]
      = .ok [[⟨[(2, 3)], false⟩]]
      ∧ pyInt (getAttr [("contours", "1")] "contours")
          = some ((numElems [XNode.element "contour" [("points", "1"), ("isHole", "0")]
              [.element "p" [("x", "2"), ("y", "3")] []]] : Nat) : Int) :=
  ⟨by rfl,
    ((readXML_structural_check.1
        [⟨[("contours", "1")],
          [.element "contour" [("points", "1"), ("isHole", "0")]
            [.element "p" [("x", "2"), ("y", "3")] []]]⟩]
        [[⟨[(2, 3)], false⟩]] (by rfl))
      ⟨[("contours", "1")],
        [.element "contour" [("points", "1"), ("isHole", "0")]
          [.element "p" [("x", "2"), ("y", "3")] []]]⟩ (by simp)).1⟩

/-! ### The SVG and PDF exporters (`writeSVG` / `writePDF`)

Polygons live in a heap (a list of polygon values addressed by index) so
that Python's object identity and in-place mutation are visible: `Polygon(p)`
allocates a fresh clone, `flop`/`warpToBox` mutate the polygon stored at an
address.  The textual SVG/PDF serialization is abstracted into structured
output items carrying exactly the data the source formats (style values, path
point lists, label anchors); stream writing/closing is covered by the
gnuplot writer model above. -/

abbrev QPoly : Type := Poly ℚ

abbrev Heap : Type := List QPoly

abbrev Color : Type := Nat × Nat × Nat

def heapGet (H : Heap) (a : Nat) : QPoly := H.getD a []

def heapSet (H : Heap) (a : Nat) (p : QPoly) : Heap := H.set a p

def polyPoints (p : QPoly) : List (ℚ × ℚ) := p.flatMap Contour.points

/-- Modelled from the spec: the engine's per-polygon bounding box
`(xMin, xMax, yMin, yMax)`, derived on demand from the points; undefined for
a polygon without points. -/
def boundingBox (p : QPoly) : Option (ℚ × ℚ × ℚ × ℚ) :=
  match polyPoints p with
  | [] => none
  | q :: r =>
    some ((r.map Prod.fst).foldl min q.1, (r.map Prod.fst).foldl max q.1,
          (r.map Prod.snd).foldl min q.2, (r.map Prod.snd).foldl max q.2)

/-- Modelled from the spec: `flop(y0)` mirrors the polygon vertically at the
line `y = y0` (the vertical flip used to adopt the SVG coordinate system). -/
def flopPoly (y0 : ℚ) (p : QPoly) : QPoly :=
  p.map fun c => ⟨c.points.map fun q => (q.1, 2 * y0 - q.2), c.isHole⟩

/-- Modelled from the spec: `warpToBox(x0, x1, y0, y1)` remaps the polygon's
own bounding box onto the rectangle `[x0,x1] × [y0,y1]`.  The engine does this
in C floating-point arithmetic; on a degenerate own bounding box the rational
model sends the ratio to 0 where C would produce non-finite values — no claim
depends on those values. -/
def warpToBox (p : QPoly) (x0 x1 y0 y1 : ℚ) : QPoly :=
  match boundingBox p with
  | none => p
  | some bb =>
    p.map fun c =>
      ⟨c.points.map fun q =>
          (x0 + (q.1 - bb.1) * (x1 - x0) / (bb.2.1 - bb.1),
           y0 + (q.2 - bb.2.2.1) * (y1 - y0) / (bb.2.2.2 - bb.2.2.1)), c.isHole⟩

/-- Errors raised along the exporter paths.  `degenerateExtent` is the
`raise Error("Polygons have no extent in one direction!")` (the spec treats
this fail-fast as `DegenerateExtent`); `labelCountMismatch` and
`labelCoordMismatch` are the two label `raise Error(...)` sites;
`zeroDivisionError` is Python float division by zero; `indexError` an
out-of-range sequence index; `valueError` and `typeError` complete the
Python error surface (`min()` of an empty sequence; formatting `None`). -/
inductive ExpErr where
  | degenerateExtent
  | zeroDivisionError
  | labelCountMismatch
  | labelCoordMismatch
  | indexError
  | valueError
  | typeError
  | engineUndefined
  deriving DecidableEq, Repr

/-- Python float division: raises ZeroDivisionError on a zero divisor. -/
def pydiv (x y : ℚ) : Except ExpErr ℚ :=
  if y = 0 then .error .zeroDivisionError else .ok (x / y)

/-- Python truthiness of an optional number (`None`, `0` and `0.0` are
falsy). -/
def truthyQ : Option ℚ → Bool
  | some v => v != 0
  | none => false

/-- Python truthiness of an optional sequence (`None` and `[]` are falsy). -/
def truthyList {α : Type} : Option (List α) → Bool
  | some l => !l.isEmpty
  | none => false

/-- The clone comprehension `pp = [Polygon(p) for p in polylist]`: fresh
copies appended to the heap, their addresses returned in order. -/
def allocClones (H : Heap) (ids : List Nat) : Heap × List Nat :=
  (H ++ ids.map (heapGet H), (List.range ids.length).map (· + H.length))

/-- The flip comprehension `[p.flop(0.0) for p in pp]`: mutate each clone. -/
def flopAll (H : Heap) (ids : List Nat) : Heap :=
  ids.foldl (fun h a => heapSet h a (flopPoly 0 (heapGet h a))) H

/-- Per-clone bounding boxes `bbs = [p.boundingBox() for p in pp]`. -/
def bbsOf (H : Heap) : List Nat → Option (List (ℚ × ℚ × ℚ × ℚ))
  | [] => some []
  | a :: rest =>
    (boundingBox (heapGet H a)).bind fun bb =>
      (bbsOf H rest).map fun r => bb :: r

/-- `seq or default` for the style arguments fed to `__RingBuffer`: `None`
and the empty sequence are falsy, so the documented default kicks in. -/
def styleOr {α : Type} (o : Option (List α)) (d : List α) : List α :=
  match o with
  | some l => if l.isEmpty then d else l
  | none => d

def default_colors : List Color :=
  [(27, 158, 119), (217, 95, 2), (117, 112, 179), (231, 41, 138),
   (102, 166, 30), (230, 171, 2), (166, 118, 29), (102, 102, 102)]

/-- A ring-buffer call inside the writers (an empty backing sequence would be
an IndexError; the defaults make it non-empty). -/
def rbCall {α : Type} (rb : RingBuffer α) : Except ExpErr (α × RingBuffer α) :=
  match rb.call with
  | some x => .ok x
  | none => .error .indexError

/-- Width/height resolution of `writeSVG` given the aspect ratio `a`:
pick a 300-unit default when neither is truthy, then derive the missing one
(`height = width * a`; `width = height / a`, a Python division). -/
def resolveDims (width height : Option ℚ) (a : ℚ) : Except ExpErr (ℚ × ℚ) :=
  let w1 : Option ℚ :=
    if !(truthyQ width) && !(truthyQ height) then
      if a < 1 then some 300 else width
    else width
  let h1 : Option ℚ :=
    if !(truthyQ width) && !(truthyQ height) then
      if a < 1 then height else some 300
    else height
  let h2 : Option ℚ := if truthyQ w1 && !(truthyQ h1) then some (w1.getD 0 * a) else h1
  if truthyQ h2 && !(truthyQ w1) then
    (pydiv (h2.getD 0) a).bind fun wv =>
      match h2 with
      | some hv => .ok (wv, hv)
      | none => .error .typeError
  else
    match w1, h2 with
    | some wv, some hv => .ok (wv, hv)
    | _, _ => .error .typeError

/-- The label argument checks of `writeSVG` (reached only when `labels` is
truthy; an empty label list never reaches them). -/
def checkLabels (npoly : Nat) :
    Option (List String) → Option (List (ℚ × ℚ)) → Except ExpErr Unit
  | some ls, labels_coords =>
    if ls.length ≠ 0 then
      if ls.length ≠ npoly then .error .labelCountMismatch
      else if truthyList labels_coords
          && ((labels_coords.getD []).length != ls.length) then
        .error .labelCoordMismatch
      else .ok ()
    else .ok ()
  | none, _ => .ok ()

/-- The labels value the output loop sees (`if labels:`). -/
def effLabels (labels : Option (List String)) : Option (List String) :=
  match labels with
  | some ls => if ls.isEmpty then none else some ls
  | none => none

/-- One emitted SVG `<path>` (with its cycled style values) and its optional
`<text>` label (anchor coordinates, text, centered flag). -/
structure SVGItem where
  fill : Color
  fillOpacity : ℚ
  stroke : Color
  strokeWidth : ℚ
  contours : List (List (ℚ × ℚ))
  label : Option ((ℚ × ℚ) × String × Bool)
  deriving DecidableEq, Repr

/-- Path data of a polygon: first point (`M c[0]`) and the rest (`L ...`);
an empty contour would be the IndexError of `c[0]`. -/
def pathContours : QPoly → Except ExpErr (List (List (ℚ × ℚ)))
  | [] => .ok []
  | ⟨[], _⟩ :: _ => .error .indexError
  | ⟨q :: r, _⟩ :: rest =>
    (pathContours rest).bind fun tail => .ok ((q :: r) :: tail)

/-- Everything the output loop of `writeSVG` reads but does not change. -/
structure SvgCtx where
  center : QPoly → ℚ × ℚ
  minx : ℚ
  miny : ℚ
  xdim : ℚ
  ydim : ℚ
  w : ℚ
  h : ℚ
  labels : Option (List String)
  coords : Option (List (ℚ × ℚ))
  centered : Bool

/-- Mutable state of the output loop. -/
structure SvgState where
  H : Heap
  rbF : RingBuffer Color
  rbO : RingBuffer ℚ
  rbS : RingBuffer Color
  rbW : RingBuffer ℚ
  items : List SVGItem

/-- An optional-lookup result, or the IndexError a bad index raises. -/
def orIndexError {α : Type} : Option α → Except ExpErr α
  | some a => .ok a
  | none => .error .indexError

/-- The optional label of polygon `i` given the effective labels value:
explicit coordinates are warped into the canvas (Python divisions), otherwise
the anchor is `p.center()` of the already-warped clone. -/
def labelOfAux (ctx : SvgCtx) (i : Nat) (pw : QPoly) :
    Option (List String) → Except ExpErr (Option ((ℚ × ℚ) × String × Bool))
  | none => .ok none
  | some ls =>
    (orIndexError (ls.get? i)).bind fun txt =>
      if truthyList ctx.coords then
        (orIndexError ((ctx.coords.getD []).get? i)).bind fun q =>
          (pydiv (ctx.w * (q.1 - ctx.minx)) ctx.xdim).bind fun cx =>
            (pydiv (ctx.h * (q.2 - ctx.miny)) ctx.ydim).bind fun cy =>
              .ok (some ((cx, cy), txt, ctx.centered))
      else
        .ok (some (ctx.center pw, txt, ctx.centered))

/-- The optional label of polygon `i` (`if labels:` in the loop body). -/
def labelOf (ctx : SvgCtx) (i : Nat) (pw : QPoly) :
    Except ExpErr (Option ((ℚ × ℚ) × String × Bool)) :=
  labelOfAux ctx i pw ctx.labels

/-- Emission part of the loop body, after the clone at `a` has been warped to
`pw` (the heap update happens first; every later error still leaves the
mutated heap behind): draw one value from each style cycler, emit the path
and the optional label. -/
def svgEmit (ctx : SvgCtx) (i : Nat) (st : SvgState) (a : Nat) (pw : QPoly) :
    Option ExpErr × SvgState :=
  match rbCall st.rbF with
  | .error e => (some e, { st with H := heapSet st.H a pw })
  | .ok fc =>
    match rbCall st.rbO with
    | .error e => (some e, { st with H := heapSet st.H a pw })
    | .ok fo =>
      match rbCall st.rbS with
      | .error e => (some e, { st with H := heapSet st.H a pw })
      | .ok sc =>
        match rbCall st.rbW with
        | .error e => (some e, { st with H := heapSet st.H a pw })
        | .ok sw =>
          match pathContours pw with
          | .error e => (some e, { st with H := heapSet st.H a pw })
          | .ok conts =>
            match labelOf ctx i pw with
            | .error e => (some e, { st with H := heapSet st.H a pw })
            | .ok lab =>
              (none, ⟨heapSet st.H a pw, fc.2, fo.2, sc.2, sw.2,
                st.items ++ [⟨fc.1, fo.1, sc.1, sw.1, conts, lab⟩]⟩)

/-- Loop body of `writeSVG` for index `i`, given `pp[i]` and `bbs[i]`:
compute the warp box (four Python divisions, left to right), mutate the clone
with `warpToBox`, then emit.  On an error the state reached so far is
returned alongside. -/
def svgStepAux (ctx : SvgCtx) (i : Nat) (st : SvgState) :
    Option Nat → Option (ℚ × ℚ × ℚ × ℚ) → Option ExpErr × SvgState
  | some a, some bb =>
    match pydiv (ctx.w * (bb.1 - ctx.minx)) ctx.xdim with
    | .error e => (some e, st)
    | .ok wx0 =>
      match pydiv (ctx.w * (bb.2.1 - ctx.minx)) ctx.xdim with
      | .error e => (some e, st)
      | .ok wx1 =>
        match pydiv (ctx.h * (bb.2.2.1 - ctx.miny)) ctx.ydim with
        | .error e => (some e, st)
        | .ok wy0 =>
          match pydiv (ctx.h * (bb.2.2.2 - ctx.miny)) ctx.ydim with
          | .error e => (some e, st)
          | .ok wy1 =>
            svgEmit ctx i st a (warpToBox (heapGet st.H a) wx0 wx1 wy0 wy1)
  | _, _ => (some .indexError, st)

/-- Loop body of `writeSVG` for index `i` (`p = pp[i]; bb = bbs[i]; ...`). -/
def svgStep (ctx : SvgCtx) (ids : List Nat) (bbs : List (ℚ × ℚ × ℚ × ℚ))
    (i : Nat) (st : SvgState) : Option ExpErr × SvgState :=
  svgStepAux ctx i st (ids.get? i) (bbs.get? i)

/-- The output loop `for i in range(npoly)`. -/
def svgLoop (ctx : SvgCtx) (ids : List Nat) (bbs : List (ℚ × ℚ × ℚ × ℚ)) :
    Nat → Nat → SvgState → Option ExpErr × SvgState
  | _, 0, st => (none, st)
  | i, fuel + 1, st =>
    match svgStep ctx ids bbs i st with
    | (none, st2) => svgLoop ctx ids bbs (i + 1) fuel st2
    | (some e, st2) => (some e, st2)

/-- Model of `writeSVG`.  Returns the outcome (the emitted items, or the
Python error) together with the final heap. -/
def writeSVG (center : QPoly → ℚ × ℚ) (H : Heap) (polylist : List Nat)
    (width height : Option ℚ)
    (fill_color : Option (List Color)) (fill_opacity : Option (List ℚ))
    (stroke_color : Option (List Color)) (stroke_width : Option (List ℚ))
    (labels : Option (List String)) (labels_coords : Option (List (ℚ × ℚ)))
    (labels_centered : Bool) : Except ExpErr (List SVGItem) × Heap :=
  let ac := allocClones H polylist
  let H2 := flopAll ac.1 ac.2
  match bbsOf H2 ac.2 with
  | none => (.error .engineUndefined, H2)
  | some bbs =>
    match bbs with
    | [] => (.error .indexError, H2)
    | b0 :: brest =>
      let minx := (brest.map (·.1)).foldl min b0.1
      let maxx := (brest.map (·.2.1)).foldl max b0.2.1
      let miny := (brest.map (·.2.2.1)).foldl min b0.2.2.1
      let maxy := (brest.map (·.2.2.2)).foldl max b0.2.2.2
      let xdim := maxx - minx
      let ydim := maxy - miny
      if xdim = 0 ∧ ydim = 0 then (.error .degenerateExtent, H2)
      else
        match pydiv ydim xdim with
        | .error e => (.error e, H2)
        | .ok a =>
          match resolveDims width height a with
          | .error e => (.error e, H2)
          | .ok wh =>
            let npoly := ac.2.length
            match checkLabels npoly labels labels_coords with
            | .error e => (.error e, H2)
            | .ok _ =>
              let ctx : SvgCtx :=
                ⟨center, minx, miny, xdim, ydim, wh.1, wh.2,
                  effLabels labels, labels_coords, labels_centered⟩
              let st0 : SvgState :=
                ⟨H2, RingBuffer.ofSeq (styleOr fill_color default_colors),
                  RingBuffer.ofSeq (styleOr fill_opacity [1]),
                  RingBuffer.ofSeq (styleOr stroke_color [(0, 0, 0)]),
                  RingBuffer.ofSeq (styleOr stroke_width [1]), []⟩
              match svgLoop ctx ac.2 bbs 0 npoly st0 with
              | (some e, st) => (.error e, st.H)
              | (none, st) => (.ok st.items, st.H)

/-- Colors of the PDF renderer (`reportlab.lib.colors`). -/
inductive RLColor where
  | red
  | green
  | blue
  | yellow
  | black
  | white
  deriving DecidableEq, Repr

/-- One polygon's painted output in `writePDF`: the cycled fill color, the
solid contours (filled with it) and the hole contours (overpainted white). -/
structure PDFItem where
  fill : RLColor
  solids : List (List (ℚ × ℚ))
  holes : List (List (ℚ × ℚ))
  deriving DecidableEq, Repr

/-- `reportlab.lib.pagesizes.A4 = (210*mm, 297*mm)` with `mm = 72/25.4`. -/
def A4 : ℚ × ℚ := (75600 / 127, 106920 / 127)

/-- The warp loop of `writePDF` (`for i in range(npoly)`; same placement
transform as `writeSVG`, no styles or labels here). -/
def pdfWarpLoop (minx miny xdim ydim w h : ℚ) (ids : List Nat)
    (bbs : List (ℚ × ℚ × ℚ × ℚ)) : Nat → Nat → Heap → Option ExpErr × Heap
  | _, 0, H => (none, H)
  | i, fuel + 1, H =>
    match ids.get? i, bbs.get? i with
    | some a, some bb =>
      match pydiv (w * (bb.1 - minx)) xdim with
      | .error e => (some e, H)
      | .ok wx0 =>
        match pydiv (w * (bb.2.1 - minx)) xdim with
        | .error e => (some e, H)
        | .ok wx1 =>
          match pydiv (h * (bb.2.2.1 - miny)) ydim with
          | .error e => (some e, H)
          | .ok wy0 =>
            match pydiv (h * (bb.2.2.2 - miny)) ydim with
            | .error e => (some e, H)
            | .ok wy1 =>
              pdfWarpLoop minx miny xdim ydim w h ids bbs (i + 1) fuel
                (heapSet H a (warpToBox (heapGet H a) wx0 wx1 wy0 wy1))
    | _, _ => (some .indexError, H)

/-- The painting loop of `writePDF`: per polygon, one fill color from the
cycler, the solid contours as closed paths, then the hole contours painted
white. -/
def pdfPaint (rb : RingBuffer RLColor) (H : Heap) :
    List Nat → Except ExpErr (List PDFItem)
  | [] => .ok []
  | a :: rest =>
    let poly := heapGet H a
    match rbCall rb with
    | .error e => .error e
    | .ok fc =>
      (pathContours (poly.filter fun c => !c.isHole)).bind fun solids =>
        (pathContours (poly.filter fun c => c.isHole)).bind fun holes =>
          (pdfPaint fc.2 H rest).bind fun items =>
            .ok (⟨fc.1, solids, holes⟩ :: items)

/-- Model of `writePDF` (the `reportlab`-backed exporter): clone (no flip),
aggregate bounding box, degenerate check, fit into the page keeping aspect
(`if a > height/width: width = height/a else: height = width*a`), warp the
clones, then paint.  Returns the outcome and the final heap. -/
def writePDF (H : Heap) (polylist : List Nat) (pagesize : Option (ℚ × ℚ))
    (fill_color : Option (List RLColor)) : Except ExpErr (List PDFItem) × Heap :=
  let ps := pagesize.getD A4
  let ac := allocClones H polylist
  let H1 := ac.1
  match bbsOf H1 ac.2 with
  | none => (.error .engineUndefined, H1)
  | some bbs =>
    match bbs with
    | [] => (.error .indexError, H1)
    | b0 :: brest =>
      let minx := (brest.map (·.1)).foldl min b0.1
      let maxx := (brest.map (·.2.1)).foldl max b0.2.1
      let miny := (brest.map (·.2.2.1)).foldl min b0.2.2.1
      let maxy := (brest.map (·.2.2.2)).foldl max b0.2.2.2
      let xdim := maxx - minx
      let ydim := maxy - miny
      if xdim = 0 ∧ ydim = 0 then (.error .degenerateExtent, H1)
      else
        match pydiv ydim xdim with
        | .error e => (.error e, H1)
        | .ok a =>
          match pydiv ps.2 ps.1 with
          | .error e => (.error e, H1)
          | .ok hw =>
            match (if a > hw then (pydiv ps.2 a).map fun w2 => (w2, ps.2)
                else .ok (ps.1, ps.1 * a) : Except ExpErr (ℚ × ℚ)) with
            | .error e => (.error e, H1)
            | .ok wh =>
              match pdfWarpLoop minx miny xdim ydim wh.1 wh.2 ac.2 bbs 0
                  ac.2.length H1 with
              | (some e, Hx) => (.error e, Hx)
              | (none, Hx) =>
                match pdfPaint
                    (RingBuffer.ofSeq
                      (styleOr fill_color [.red, .green, .blue, .yellow]))
                    Hx ac.2 with
                | .error e => (.error e, Hx)
                | .ok items => (.ok items, Hx)

section SvgExamples

example :
    (writeSVG (fun _ => (0, 0)) [[⟨[(1, 1), (1, 1), (1, 1)], false⟩]] [0]
        none none none none none none none none false).1
      = .error .degenerateExtent := by with_unfolding_all rfl

example :
    (writeSVG (fun _ => (0, 0)) [[⟨[(0, 0), (0, 1), (0, 2)], false⟩]] [0]
        none none none none none none none none false).1
      = .error .zeroDivisionError := by with_unfolding_all rfl

example :
    (writeSVG (fun _ => (0, 0)) [[⟨[(0, 0), (1, 0), (2, 0)], false⟩]] [0]
        none none none none none none none none false).1
      = .error .zeroDivisionError := by with_unfolding_all rfl

example :
    (writeSVG (fun _ => (0, 0)) [[⟨[(0, 0), (1, 0), (0, 1)], false⟩]] [0]
        none none none none none none (some ["a", "b"]) none false).1
      = .error .labelCountMismatch := by with_unfolding_all rfl

example :
    ((writeSVG (fun _ => (0, 0)) [[⟨[(0, 0), (1, 0), (0, 1)], false⟩]] [0]
        none none none none none none (some []) none false).1).isOk = true := by
  with_unfolding_all rfl

example :
    ((writeSVG (fun _ => (5, 7)) [[⟨[(0, 0), (1, 0), (0, 1)], false⟩]] [0]
        none none none none none none (some ["t"]) none false).1).map
        (fun items => items.map SVGItem.label)
      = .ok [some ((5, 7), "t", false)] := by with_unfolding_all rfl

example :
    ((writePDF [[⟨[(0, 0), (1, 0), (0, 1)], false⟩]] [0] none none).1).isOk
      = true := by with_unfolding_all rfl

end SvgExamples

/-! ### Heap lemmas for the exporters -/

theorem heapGet_append_left (H cs : Heap) (b : Nat) (hb : b < H.length) :
    heapGet (H ++ cs) b = heapGet H b := by
  unfold heapGet List.getD
  rw [List.get?_append hb]

theorem heapGet_append_right (H cs : Heap) (i : Nat) :
    heapGet (H ++ cs) (H.length + i) = heapGet cs i := by
  unfold heapGet List.getD
  rw [List.get?_append_right (by omega)]
  simp

theorem heapGet_set_ne (h : Heap) (a b : Nat) (p : QPoly) (hne : a ≠ b) :
    heapGet (heapSet h a p) b = heapGet h b := by
  unfold heapGet heapSet List.getD
  rw [List.get?_set_ne p h hne]

theorem heapGet_set_self (h : Heap) (a : Nat) (p : QPoly) (ha : a < h.length) :
    heapGet (heapSet h a p) a = p := by
  unfold heapGet heapSet List.getD
  rw [List.get?_set_eq_of_lt p ha]
  rfl

theorem heapSet_length (h : Heap) (a : Nat) (p : QPoly) :
    (heapSet h a p).length = h.length := List.length_set h a p

theorem cloneIds_mem {n L a : Nat} (h : a ∈ (List.range n).map (· + L)) : L ≤ a := by
  simp only [List.mem_map, List.mem_range] at h
  obtain ⟨j, _, rfl⟩ := h
  omega

theorem cloneIds_get? {n L j : Nat} (hj : j < n) :
    ((List.range n).map (· + L)).get? j = some (j + L) := by
  rw [List.get?_map, List.get?_range hj]
  rfl

/-- Fusion of the clone comprehension with the flip comprehension: the heap
after `pp = [Polygon(p) for p in polylist]` and `[p.flop(0.0) for p in pp]`
is the original heap extended by the flipped copies. -/
theorem flopAll_allocClones (H : Heap) (cs : List QPoly) :
    flopAll (H ++ cs) ((List.range cs.length).map (· + H.length))
      = H ++ cs.map (flopPoly 0) := by
  induction cs generalizing H with
  | nil => simp [flopAll]
  | cons c cs ih =>
    rw [List.length_cons, List.range_succ_eq_map, List.map_cons, flopAll,
      List.foldl_cons]
    have hget : heapGet (H ++ c :: cs) (0 + H.length) = c := by
      rw [Nat.zero_add, show H.length = H.length + 0 from rfl,
        heapGet_append_right]
      rfl
    have hset : heapSet (H ++ c :: cs) (0 + H.length) (flopPoly 0 c)
        = (H ++ [flopPoly 0 c]) ++ cs := by
      unfold heapSet
      rw [Nat.zero_add, show H.length = H.length + 0 from rfl,
        List.set_append_right _ _ (by omega)]
      simp
    rw [hget, hset]
    have hmap : (List.map (· + 1) (List.range cs.length)).map (· + H.length)
        = (List.range cs.length).map (· + (H ++ [flopPoly 0 c]).length) := by
      rw [List.map_map]
      refine List.map_congr_left fun j _ => ?_
      simp
      omega
    rw [hmap]
    have hih := ih (H ++ [flopPoly 0 c])
    exact hih.trans (by simp)

/-- Reading the clone slots after clone-and-flip. -/
theorem heapGet_flopped (H : Heap) (polylist : List Nat) (i : Nat)
    (hi : i < polylist.length) :
    heapGet (H ++ (polylist.map (heapGet H)).map (flopPoly 0)) (i + H.length)
      = flopPoly 0 (heapGet H (polylist.getD i 0)) := by
  rw [Nat.add_comm i H.length, heapGet_append_right]
  unfold heapGet List.getD
  rw [List.get?_map, List.get?_map]
  cases hg : polylist.get? i with
  | none =>
    rw [List.get?_eq_none] at hg
    omega
  | some a => rfl

/-! ### Extent lemmas: aggregate min/max versus the collection's points -/

theorem foldl_min_le_base (l : List ℚ) (q : ℚ) : l.foldl min q ≤ q := by
  induction l generalizing q with
  | nil => exact le_refl q
  | cons x r ih => exact le_trans (ih (min q x)) (min_le_left q x)

theorem foldl_min_le (l : List ℚ) (q : ℚ) : ∀ x ∈ q :: l, l.foldl min q ≤ x := by
  induction l generalizing q with
  | nil =>
    intro x hx
    rcases List.mem_cons.mp hx with rfl | hx2
    · exact le_refl x
    · simp at hx2
  | cons y r ih =>
    intro x hx
    rcases List.mem_cons.mp hx with rfl | hx2
    · exact le_trans (foldl_min_le_base r (min x y)) (min_le_left x y)
    · rcases List.mem_cons.mp hx2 with rfl | hx3
      · exact le_trans (foldl_min_le_base r (min q x)) (min_le_right q x)
      · exact ih (min q y) x (by simp [hx3])

theorem foldl_min_mem (l : List ℚ) (q : ℚ) : l.foldl min q ∈ q :: l := by
  induction l generalizing q with
  | nil => simp
  | cons x r ih =>
    have h := ih (min q x)
    rcases List.mem_cons.mp h with he | hm
    · rw [List.foldl_cons, he]
      rcases min_choice q x with h1 | h1 <;> simp [h1]
    · simp [List.foldl_cons, hm]

theorem le_foldl_max (l : List ℚ) (q : ℚ) : ∀ x ∈ q :: l, x ≤ l.foldl max q := by
  have base : ∀ (l : List ℚ) (q : ℚ), q ≤ l.foldl max q := by
    intro l
    induction l with
    | nil => intro q; exact le_refl q
    | cons x r ih => intro q; exact le_trans (le_max_left q x) (ih (max q x))
  induction l generalizing q with
  | nil =>
    intro x hx
    rcases List.mem_cons.mp hx with rfl | hx2
    · exact le_refl x
    · simp at hx2
  | cons y r ih =>
    intro x hx
    rcases List.mem_cons.mp hx with rfl | hx2
    · exact le_trans (le_max_left x y) (base r (max x y))
    · rcases List.mem_cons.mp hx2 with rfl | hx3
      · exact le_trans (le_max_right q x) (base r (max q x))
      · exact ih (max q y) x (by simp [hx3])

theorem foldl_max_mem (l : List ℚ) (q : ℚ) : l.foldl max q ∈ q :: l := by
  induction l generalizing q with
  | nil => simp
  | cons x r ih =>
    have h := ih (max q x)
    rcases List.mem_cons.mp h with he | hm
    · rw [List.foldl_cons, he]
      rcases max_choice q x with h1 | h1 <;> simp [h1]
    · simp [List.foldl_cons, hm]

/-- Core aggregation fact: for a non-empty list of (lower bound, upper bound,
values) triples where each bound is attained among its values, the aggregate
`max` of uppers minus the aggregate `min` of lowers is zero iff all values of
all triples coincide. -/
theorem agg_zero_iff (i0 : ℚ × ℚ × List ℚ) (irest : List (ℚ × ℚ × List ℚ))
    (hbound : ∀ it ∈ i0 :: irest,
      (∀ x ∈ it.2.2, it.1 ≤ x ∧ x ≤ it.2.1) ∧ it.1 ∈ it.2.2 ∧ it.2.1 ∈ it.2.2) :
    ((irest.map (·.2.1)).foldl max i0.2.1 - (irest.map (·.1)).foldl min i0.1 = 0)
      ↔ ∀ u ∈ (i0 :: irest).flatMap (·.2.2), ∀ v ∈ (i0 :: irest).flatMap (·.2.2),
          u = v := by
  set m := (irest.map (·.1)).foldl min i0.1 with hm
  set M := (irest.map (·.2.1)).foldl max i0.2.1 with hM
  have hmle : ∀ it ∈ i0 :: irest, m ≤ it.1 := by
    intro it hit
    rcases List.mem_cons.mp hit with rfl | hit2
    · exact foldl_min_le _ _ _ (by simp)
    · exact foldl_min_le _ _ _ (List.mem_cons_of_mem _ (List.mem_map_of_mem _ hit2))
  have hMge : ∀ it ∈ i0 :: irest, it.2.1 ≤ M := by
    intro it hit
    rcases List.mem_cons.mp hit with rfl | hit2
    · exact le_foldl_max _ _ _ (by simp)
    · exact le_foldl_max _ _ _ (List.mem_cons_of_mem _ (List.mem_map_of_mem _ hit2))
  have hmmem : ∃ it ∈ i0 :: irest, m = it.1 := by
    have h := foldl_min_mem (irest.map (·.1)) i0.1
    rcases List.mem_cons.mp h with he | hmm
    · exact ⟨i0, by simp, he⟩
    · simp only [List.mem_map] at hmm
      obtain ⟨it, hit, he⟩ := hmm
      exact ⟨it, by simp [hit], he.symm⟩
  have hMmem : ∃ it ∈ i0 :: irest, M = it.2.1 := by
    have h := foldl_max_mem (irest.map (·.2.1)) i0.2.1
    rcases List.mem_cons.mp h with he | hmm
    · exact ⟨i0, by simp, he⟩
    · simp only [List.mem_map] at hmm
      obtain ⟨it, hit, he⟩ := hmm
      exact ⟨it, by simp [hit], he.symm⟩
  have hval : ∀ u ∈ (i0 :: irest).flatMap (·.2.2), m ≤ u ∧ u ≤ M := by
    intro u hu
    simp only [List.mem_flatMap] at hu
    obtain ⟨it, hit, hu2⟩ := hu
    obtain ⟨hb, _, _⟩ := hbound it hit
    exact ⟨le_trans (hmle it hit) (hb u hu2).1, le_trans (hb u hu2).2 (hMge it hit)⟩
  constructor
  · intro h u hu v hv
    have hMm : M = m := by linarith [sub_eq_zero.mp h]
    have h1 := hval u hu
    have h2 := hval v hv
    have : u = m := le_antisymm (by rw [← hMm]; exact h1.2) h1.1
    have hv2 : v = m := le_antisymm (by rw [← hMm]; exact h2.2) h2.1
    rw [this, hv2]
  · intro h
    obtain ⟨itm, hitm, hem⟩ := hmmem
    obtain ⟨itM, hitM, heM⟩ := hMmem
    have h1 : m ∈ (i0 :: irest).flatMap (·.2.2) := by
      simp only [List.mem_flatMap]
      exact ⟨itm, hitm, hem ▸ (hbound itm hitm).2.1⟩
    have h2 : M ∈ (i0 :: irest).flatMap (·.2.2) := by
      simp only [List.mem_flatMap]
      exact ⟨itM, hitM, heM ▸ (hbound itM hitM).2.2⟩
    rw [h M h2 m h1]
    ring

/-- Data-model validity: a polygon with at least one contour, every contour
non-empty (§3: every Contour has ≥ 1 point). -/
def validPoly (p : QPoly) : Prop := p ≠ [] ∧ ∀ c ∈ p, c.points ≠ []

theorem validPoly_points (p : QPoly) (h : validPoly p) : polyPoints p ≠ [] := by
  obtain ⟨hne, hc⟩ := h
  cases p with
  | nil => exact absurd rfl hne
  | cons c rest =>
    unfold polyPoints
    rw [List.flatMap_cons]
    intro hcon
    exact hc c (by simp) (List.append_eq_nil.mp hcon).1

/-- Total bounding box of a polygon with points (the `some` payload of
`boundingBox`). -/
def bbox1 (p : QPoly) : ℚ × ℚ × ℚ × ℚ :=
  match polyPoints p with
  | [] => (0, 0, 0, 0)
  | q :: r =>
    ((r.map Prod.fst).foldl min q.1, (r.map Prod.fst).foldl max q.1,
     (r.map Prod.snd).foldl min q.2, (r.map Prod.snd).foldl max q.2)

theorem boundingBox_eq_bbox1 (p : QPoly) (hp : polyPoints p ≠ []) :
    boundingBox p = some (bbox1 p) := by
  unfold boundingBox bbox1
  cases h : polyPoints p with
  | nil => exact absurd h hp
  | cons q r => rfl

theorem bbox1_x_spec (p : QPoly) (hp : polyPoints p ≠ []) :
    (∀ x ∈ (polyPoints p).map Prod.fst, (bbox1 p).1 ≤ x ∧ x ≤ (bbox1 p).2.1)
      ∧ (bbox1 p).1 ∈ (polyPoints p).map Prod.fst
      ∧ (bbox1 p).2.1 ∈ (polyPoints p).map Prod.fst := by
  cases h : polyPoints p with
  | nil => exact absurd h hp
  | cons q r =>
    unfold bbox1
    rw [h, List.map_cons]
    dsimp only
    refine ⟨?_, foldl_min_mem _ _, foldl_max_mem _ _⟩
    intro x hx
    exact ⟨foldl_min_le _ _ x hx, le_foldl_max _ _ x hx⟩

theorem bbox1_y_spec (p : QPoly) (hp : polyPoints p ≠ []) :
    (∀ y ∈ (polyPoints p).map Prod.snd, (bbox1 p).2.2.1 ≤ y ∧ y ≤ (bbox1 p).2.2.2)
      ∧ (bbox1 p).2.2.1 ∈ (polyPoints p).map Prod.snd
      ∧ (bbox1 p).2.2.2 ∈ (polyPoints p).map Prod.snd := by
  cases h : polyPoints p with
  | nil => exact absurd h hp
  | cons q r =>
    unfold bbox1
    rw [h, List.map_cons]
    dsimp only
    refine ⟨?_, foldl_min_mem _ _, foldl_max_mem _ _⟩
    intro y hy
    exact ⟨foldl_min_le _ _ y hy, le_foldl_max _ _ y hy⟩

/-- The bounding-box list of a list of polygon values. -/
def bbList : List QPoly → Option (List (ℚ × ℚ × ℚ × ℚ))
  | [] => some []
  | p :: rest =>
    (boundingBox p).bind fun bb => (bbList rest).map fun r => bb :: r

theorem bbsOf_append (H : Heap) (cs : List QPoly) :
    bbsOf (H ++ cs) ((List.range cs.length).map (· + H.length)) = bbList cs := by
  induction cs generalizing H with
  | nil => rfl
  | cons c cs ih =>
    rw [List.length_cons, List.range_succ_eq_map, List.map_cons, bbsOf, bbList]
    have hget : heapGet (H ++ c :: cs) (0 + H.length) = c := by
      rw [Nat.zero_add, show H.length = H.length + 0 from rfl, heapGet_append_right]
      rfl
    have hmap : (List.map (· + 1) (List.range cs.length)).map (· + H.length)
        = (List.range cs.length).map (· + (H ++ [c]).length) := by
      rw [List.map_map]
      refine List.map_congr_left fun j _ => ?_
      simp
      omega
    have hrec : bbsOf (H ++ c :: cs)
        ((List.map (· + 1) (List.range cs.length)).map (· + H.length)) = bbList cs := by
      rw [hmap, show H ++ c :: cs = (H ++ [c]) ++ cs from by simp]
      exact ih (H ++ [c])
    rw [hget, hrec]

theorem bbList_valid (cs : List QPoly) (h : ∀ p ∈ cs, polyPoints p ≠ []) :
    bbList cs = some (cs.map bbox1) := by
  induction cs with
  | nil => rfl
  | cons c cs ih =>
    rw [bbList, boundingBox_eq_bbox1 c (h c (by simp)),
      ih (fun p hp => h p (by simp [hp]))]
    rfl

/-- All points of the polygons in a collection, in order (the aggregate the
spec derives the shared bounding region from). -/
def collPoints (H : Heap) (ids : List Nat) : List (ℚ × ℚ) :=
  ids.flatMap fun a => polyPoints (heapGet H a)

/-- Aggregate x-extent of a collection (max x minus min x over all points;
0 for an empty collection). -/
def xExtent (H : Heap) (ids : List Nat) : ℚ :=
  match collPoints H ids with
  | [] => 0
  | q :: r => (r.map Prod.fst).foldl max q.1 - (r.map Prod.fst).foldl min q.1

/-- Aggregate y-extent of a collection. -/
def yExtent (H : Heap) (ids : List Nat) : ℚ :=
  match collPoints H ids with
  | [] => 0
  | q :: r => (r.map Prod.snd).foldl max q.2 - (r.map Prod.snd).foldl min q.2

theorem maxmin_zero_iff (q : ℚ) (r : List ℚ) :
    (r.foldl max q - r.foldl min q = 0) ↔ ∀ u ∈ q :: r, ∀ v ∈ q :: r, u = v := by
  constructor
  · intro h u hu v hv
    have hMm : r.foldl max q = r.foldl min q := by linarith [sub_eq_zero.mp h]
    have h1 : u = r.foldl min q :=
      le_antisymm (hMm ▸ le_foldl_max r q u hu) (foldl_min_le r q u hu)
    have h2 : v = r.foldl min q :=
      le_antisymm (hMm ▸ le_foldl_max r q v hv) (foldl_min_le r q v hv)
    rw [h1, h2]
  · intro h
    rw [h (r.foldl max q) (foldl_max_mem r q) (r.foldl min q) (foldl_min_mem r q)]
    ring

theorem xExtent_zero_iff (H : Heap) (ids : List Nat) (hc : collPoints H ids ≠ []) :
    xExtent H ids = 0
      ↔ ∀ u ∈ (collPoints H ids).map Prod.fst,
          ∀ v ∈ (collPoints H ids).map Prod.fst, u = v := by
  cases h : collPoints H ids with
  | nil => exact absurd h hc
  | cons q r =>
    unfold xExtent
    rw [h, List.map_cons]
    exact maxmin_zero_iff q.1 (r.map Prod.fst)

theorem yExtent_zero_iff (H : Heap) (ids : List Nat) (hc : collPoints H ids ≠ []) :
    yExtent H ids = 0
      ↔ ∀ u ∈ (collPoints H ids).map Prod.snd,
          ∀ v ∈ (collPoints H ids).map Prod.snd, u = v := by
  cases h : collPoints H ids with
  | nil => exact absurd h hc
  | cons q r =>
    unfold yExtent
    rw [h, List.map_cons]
    exact maxmin_zero_iff q.2 (r.map Prod.snd)

theorem polyPoints_flop (p : QPoly) :
    polyPoints (flopPoly 0 p) = (polyPoints p).map fun q => (q.1, -q.2) := by
  induction p with
  | nil => rfl
  | cons c rest ih =>
    unfold polyPoints flopPoly at ih ⊢
    rw [List.map_cons, List.flatMap_cons, List.flatMap_cons, List.map_append, ih]
    congr 1
    refine List.map_congr_left fun q _ => ?_
    norm_num

theorem xs_flop (l : List QPoly) :
    ((l.map (flopPoly 0)).flatMap polyPoints).map Prod.fst
      = (l.flatMap polyPoints).map Prod.fst := by
  rw [List.flatMap_map]
  induction l with
  | nil => rfl
  | cons p rest ih =>
    rw [List.flatMap_cons, List.flatMap_cons, List.map_append, List.map_append, ih,
      polyPoints_flop, List.map_map]
    congr 1

theorem ys_flop (l : List QPoly) :
    ((l.map (flopPoly 0)).flatMap polyPoints).map Prod.snd
      = ((l.flatMap polyPoints).map Prod.snd).map Neg.neg := by
  rw [List.flatMap_map]
  induction l with
  | nil => rfl
  | cons p rest ih =>
    rw [List.flatMap_cons, List.flatMap_cons, List.map_append, List.map_append,
      List.map_append, ih, polyPoints_flop, List.map_map, List.map_map]
    congr 1
    rw [List.map_map]
    rfl

theorem allEq_neg (l : List ℚ) :
    (∀ u ∈ l.map Neg.neg, ∀ v ∈ l.map Neg.neg, u = v)
      ↔ ∀ u ∈ l, ∀ v ∈ l, u = v := by
  constructor
  · intro h u hu v hv
    have := h (-u) (List.mem_map_of_mem _ hu) (-v) (List.mem_map_of_mem _ hv)
    linarith [this]
  · intro h u hu v hv
    simp only [List.mem_map] at hu hv
    obtain ⟨a, ha, rfl⟩ := hu
    obtain ⟨b, hb, rfl⟩ := hv
    rw [h a ha b hb]

/-- Bridge for the x dimension: the loop-level `maxx - minx` over the clones'
bounding boxes vanishes iff all x coordinates of the collection coincide. -/
theorem xdim_zero_iff (l : List QPoly) (b0 : ℚ × ℚ × ℚ × ℚ)
    (brest : List (ℚ × ℚ × ℚ × ℚ)) (hb : l.map bbox1 = b0 :: brest)
    (hv : ∀ p ∈ l, polyPoints p ≠ []) :
    ((brest.map (·.2.1)).foldl max b0.2.1 - (brest.map (·.1)).foldl min b0.1 = 0)
      ↔ ∀ u ∈ (l.flatMap polyPoints).map Prod.fst,
          ∀ v ∈ (l.flatMap polyPoints).map Prod.fst, u = v := by
  cases l with
  | nil => cases hb
  | cons p0 prest =>
    rw [List.map_cons] at hb
    obtain ⟨hb0, hbrest⟩ := List.cons_eq_cons.mp hb
    subst hb0
    subst hbrest
    rw [List.map_map, List.map_map]
    have key := agg_zero_iff
      ((bbox1 p0).1, (bbox1 p0).2.1, (polyPoints p0).map Prod.fst)
      (prest.map fun p => ((bbox1 p).1, (bbox1 p).2.1, (polyPoints p).map Prod.fst))
      (by
        intro it hit
        rcases List.mem_cons.mp hit with rfl | hit2
        · have := bbox1_x_spec p0 (hv p0 (by simp))
          exact ⟨fun x hx => (this.1 x hx), this.2.1, this.2.2⟩
        · simp only [List.mem_map] at hit2
          obtain ⟨p, hp, rfl⟩ := hit2
          have := bbox1_x_spec p (hv p (by simp [hp]))
          exact ⟨fun x hx => (this.1 x hx), this.2.1, this.2.2⟩)
    rw [List.map_map, List.map_map] at key
    have hfl : ((((bbox1 p0).1, (bbox1 p0).2.1, (polyPoints p0).map Prod.fst) ::
          prest.map fun p => ((bbox1 p).1, (bbox1 p).2.1, (polyPoints p).map Prod.fst))
            |>.flatMap (·.2.2))
        = ((p0 :: prest).flatMap polyPoints).map Prod.fst := by
      rw [List.map_flatMap, List.flatMap_cons, List.flatMap_cons, List.flatMap_map]
    rw [hfl] at key
    exact key

/-- Bridge for the y dimension. -/
theorem ydim_zero_iff (l : List QPoly) (b0 : ℚ × ℚ × ℚ × ℚ)
    (brest : List (ℚ × ℚ × ℚ × ℚ)) (hb : l.map bbox1 = b0 :: brest)
    (hv : ∀ p ∈ l, polyPoints p ≠ []) :
    ((brest.map (·.2.2.2)).foldl max b0.2.2.2
        - (brest.map (·.2.2.1)).foldl min b0.2.2.1 = 0)
      ↔ ∀ u ∈ (l.flatMap polyPoints).map Prod.snd,
          ∀ v ∈ (l.flatMap polyPoints).map Prod.snd, u = v := by
  cases l with
  | nil => cases hb
  | cons p0 prest =>
    rw [List.map_cons] at hb
    obtain ⟨hb0, hbrest⟩ := List.cons_eq_cons.mp hb
    subst hb0
    subst hbrest
    rw [List.map_map, List.map_map]
    have key := agg_zero_iff
      ((bbox1 p0).2.2.1, (bbox1 p0).2.2.2, (polyPoints p0).map Prod.snd)
      (prest.map fun p => ((bbox1 p).2.2.1, (bbox1 p).2.2.2, (polyPoints p).map Prod.snd))
      (by
        intro it hit
        rcases List.mem_cons.mp hit with rfl | hit2
        · have := bbox1_y_spec p0 (hv p0 (by simp))
          exact ⟨fun y hy => (this.1 y hy), this.2.1, this.2.2⟩
        · simp only [List.mem_map] at hit2
          obtain ⟨p, hp, rfl⟩ := hit2
          have := bbox1_y_spec p (hv p (by simp [hp]))
          exact ⟨fun y hy => (this.1 y hy), this.2.1, this.2.2⟩)
    rw [List.map_map, List.map_map] at key
    have hfl : ((((bbox1 p0).2.2.1, (bbox1 p0).2.2.2, (polyPoints p0).map Prod.snd) ::
          prest.map fun p => ((bbox1 p).2.2.1, (bbox1 p).2.2.2, (polyPoints p).map Prod.snd))
            |>.flatMap (·.2.2))
        = ((p0 :: prest).flatMap polyPoints).map Prod.snd := by
      rw [List.map_flatMap, List.flatMap_cons, List.flatMap_cons, List.flatMap_map]
    rw [hfl] at key
    exact key

/-! ### Error classification along the writeSVG pipeline -/

theorem pydiv_ok (x y : ℚ) (hy : y ≠ 0) : pydiv x y = .ok (x / y) := by
  unfold pydiv
  rw [if_neg hy]

theorem pydiv_zero (x : ℚ) : pydiv x 0 = .error .zeroDivisionError := by
  unfold pydiv
  rw [if_pos rfl]

theorem pydiv_error (x y : ℚ) (e : ExpErr) (h : pydiv x y = .error e) :
    e = .zeroDivisionError ∧ y = 0 := by
  unfold pydiv at h
  by_cases hy : y = 0
  · rw [if_pos hy] at h
    cases h
    exact ⟨rfl, hy⟩
  · rw [if_neg hy] at h
    cases h

theorem rbCall_error {α : Type} (rb : RingBuffer α) (e : ExpErr)
    (h : rbCall rb = .error e) : e = .indexError := by
  unfold rbCall at h
  cases hc : rb.call with
  | some x => rw [hc] at h; cases h
  | none => rw [hc] at h; cases h; rfl

theorem orIndexError_some {α : Type} (a : α) : orIndexError (some a) = .ok a := rfl

theorem orIndexError_none {α : Type} :
    (orIndexError (none : Option α)) = .error .indexError := rfl

theorem pathContours_error (p : QPoly) (e : ExpErr)
    (h : pathContours p = .error e) : e = .indexError := by
  induction p with
  | nil => cases h
  | cons c rest ih =>
    obtain ⟨pts, hole⟩ := c
    cases pts with
    | nil =>
      rw [pathContours] at h
      cases h
      rfl
    | cons q r =>
      rw [pathContours] at h
      cases hr : pathContours rest with
      | error e2 =>
        rw [hr, bind_error] at h
        cases h
        exact ih hr
      | ok tail => rw [hr, bind_ok] at h; cases h

theorem labelOf_error (ctx : SvgCtx) (i : Nat) (pw : QPoly) (e : ExpErr)
    (h : labelOf ctx i pw = .error e) :
    e = .indexError ∨ e = .zeroDivisionError := by
  unfold labelOf at h
  cases hl : ctx.labels with
  | none =>
    rw [hl, labelOfAux] at h
    cases h
  | some ls =>
    rw [hl, labelOfAux] at h
    cases hg : ls.get? i with
    | none =>
      rw [hg, orIndexError_none, bind_error] at h
      cases h
      left
      rfl
    | some txt =>
      rw [hg, orIndexError_some, bind_ok] at h
      by_cases hc : truthyList ctx.coords = true
      · rw [if_pos hc] at h
        cases hq : (ctx.coords.getD []).get? i with
        | none =>
          rw [hq, orIndexError_none, bind_error] at h
          cases h
          left
          rfl
        | some q =>
          rw [hq, orIndexError_some, bind_ok] at h
          cases hd1 : pydiv (ctx.w * (q.1 - ctx.minx)) ctx.xdim with
          | error e1 =>
            rw [hd1, bind_error] at h
            cases h
            exact Or.inr (pydiv_error _ _ _ hd1).1
          | ok cx =>
            rw [hd1, bind_ok] at h
            cases hd2 : pydiv (ctx.h * (q.2 - ctx.miny)) ctx.ydim with
            | error e2 =>
              rw [hd2, bind_error] at h
              cases h
              exact Or.inr (pydiv_error _ _ _ hd2).1
            | ok cy => rw [hd2, bind_ok] at h; cases h
      · rw [if_neg hc] at h
        cases h

theorem checkLabels_error (npoly : Nat) (labels : Option (List String))
    (coords : Option (List (ℚ × ℚ))) (e : ExpErr)
    (h : checkLabels npoly labels coords = .error e) :
    e = .labelCountMismatch ∨ e = .labelCoordMismatch := by
  cases labels with
  | none => rw [checkLabels] at h; cases h
  | some ls =>
    rw [checkLabels] at h
    by_cases h0 : ls.length ≠ 0
    · rw [if_pos h0] at h
      by_cases h1 : ls.length ≠ npoly
      · rw [if_pos h1] at h
        cases h
        left
        rfl
      · rw [if_neg h1] at h
        by_cases h2 : (truthyList coords && ((coords.getD []).length != ls.length)) = true
        · rw [if_pos h2] at h
          cases h
          right
          rfl
        · rw [if_neg h2] at h
          cases h
    · rw [if_neg h0] at h
      cases h

/-- Case analysis of the emission part. -/
theorem svgEmit_cases (ctx : SvgCtx) (i : Nat) (st : SvgState) (a : Nat)
    (pw : QPoly) :
    (∃ e, svgEmit ctx i st a pw = (some e, { st with H := heapSet st.H a pw })
        ∧ e ≠ .degenerateExtent)
      ∨ (∃ st2, svgEmit ctx i st a pw = (none, st2)
          ∧ st2.H = heapSet st.H a pw
          ∧ ∃ item, st2.items = st.items ++ [item]
              ∧ ∀ ls2, ctx.labels = some ls2 → truthyList ctx.coords = false →
                  ∃ txt, ls2.get? i = some txt
                    ∧ item.label = some (ctx.center pw, txt, ctx.centered)) := by
  unfold svgEmit
  cases hr1 : rbCall st.rbF with
  | error e => exact .inl ⟨e, rfl, by rw [rbCall_error _ _ hr1]; simp⟩
  | ok fc =>
    cases hr2 : rbCall st.rbO with
    | error e => exact .inl ⟨e, rfl, by rw [rbCall_error _ _ hr2]; simp⟩
    | ok fo =>
      cases hr3 : rbCall st.rbS with
      | error e => exact .inl ⟨e, rfl, by rw [rbCall_error _ _ hr3]; simp⟩
      | ok sc =>
        cases hr4 : rbCall st.rbW with
        | error e => exact .inl ⟨e, rfl, by rw [rbCall_error _ _ hr4]; simp⟩
        | ok sw =>
          cases hpc : pathContours pw with
          | error e => exact .inl ⟨e, rfl, by rw [pathContours_error _ _ hpc]; simp⟩
          | ok conts =>
            cases hlo : labelOf ctx i pw with
            | error e =>
              refine .inl ⟨e, rfl, ?_⟩
              rcases labelOf_error _ _ _ _ hlo with h | h <;> rw [h] <;> simp
            | ok lab =>
              refine .inr ⟨_, rfl, rfl, ⟨fc.1, fo.1, sc.1, sw.1, conts, lab⟩, rfl, ?_⟩
              intro ls2 hl2 hcf
              rw [labelOf, hl2, labelOfAux] at hlo
              cases hgt : ls2.get? i with
              | none =>
                rw [hgt, orIndexError_none, bind_error] at hlo
                cases hlo
              | some txt =>
                rw [hgt, orIndexError_some, bind_ok, hcf] at hlo
                rw [if_neg (by simp)] at hlo
                cases hlo
                exact ⟨txt, rfl, rfl⟩

/-- Complete case analysis of one `writeSVG` loop step: it either fails with
an error that is never `degenerateExtent`, leaving the items unchanged and the
heap either unchanged or with only the clone at `ids[i]` rewritten, or it
succeeds, warping the clone at `ids[i]` in place and appending exactly one
item whose label (when labels are present and explicit coordinates are not)
is anchored at the centroid of the warped clone. -/
theorem svgStep_cases (ctx : SvgCtx) (ids : List Nat)
    (bbs : List (ℚ × ℚ × ℚ × ℚ)) (i : Nat) (st : SvgState) :
    (∃ e st2, svgStep ctx ids bbs i st = (some e, st2)
        ∧ e ≠ .degenerateExtent
        ∧ (st2.H = st.H ∨ ∃ a pw, ids.get? i = some a ∧ st2.H = heapSet st.H a pw)
        ∧ st2.items = st.items)
      ∨ (∃ a st2, ids.get? i = some a
          ∧ svgStep ctx ids bbs i st = (none, st2)
          ∧ ∃ pw, st2.H = heapSet st.H a pw
              ∧ ∃ item, st2.items = st.items ++ [item]
                  ∧ ∀ ls2, ctx.labels = some ls2 → truthyList ctx.coords = false →
                      ∃ txt, ls2.get? i = some txt
                        ∧ item.label = some (ctx.center pw, txt, ctx.centered)) := by
  unfold svgStep
  cases hga : ids.get? i with
  | none =>
    cases hgb : bbs.get? i with
    | none => exact .inl ⟨.indexError, st, rfl, by simp, Or.inl rfl, rfl⟩
    | some bb => exact .inl ⟨.indexError, st, rfl, by simp, Or.inl rfl, rfl⟩
  | some a =>
    cases hgb : bbs.get? i with
    | none => exact .inl ⟨.indexError, st, rfl, by simp, Or.inl rfl, rfl⟩
    | some bb =>
      rw [svgStepAux]
      cases hd1 : pydiv (ctx.w * (bb.1 - ctx.minx)) ctx.xdim with
      | error e =>
        refine .inl ⟨e, st, rfl, ?_, Or.inl rfl, rfl⟩
        rw [(pydiv_error _ _ _ hd1).1]
        simp
      | ok wx0 =>
        cases hd2 : pydiv (ctx.w * (bb.2.1 - ctx.minx)) ctx.xdim with
        | error e =>
          refine .inl ⟨e, st, rfl, ?_, Or.inl rfl, rfl⟩
          rw [(pydiv_error _ _ _ hd2).1]
          simp
        | ok wx1 =>
          cases hd3 : pydiv (ctx.h * (bb.2.2.1 - ctx.miny)) ctx.ydim with
          | error e =>
            refine .inl ⟨e, st, rfl, ?_, Or.inl rfl, rfl⟩
            rw [(pydiv_error _ _ _ hd3).1]
            simp
          | ok wy0 =>
            cases hd4 : pydiv (ctx.h * (bb.2.2.2 - ctx.miny)) ctx.ydim with
            | error e =>
              refine .inl ⟨e, st, rfl, ?_, Or.inl rfl, rfl⟩
              rw [(pydiv_error _ _ _ hd4).1]
              simp
            | ok wy1 =>
              rcases svgEmit_cases ctx i st a
                  (warpToBox (heapGet st.H a) wx0 wx1 wy0 wy1) with
                ⟨e, hemit, hne⟩ | ⟨st2, hemit, hH, item, hitems, hlab⟩
              · refine .inl ⟨e, _, hemit, hne,
                  Or.inr ⟨a, warpToBox (heapGet st.H a) wx0 wx1 wy0 wy1, rfl, rfl⟩,
                  rfl⟩
              · exact .inr ⟨a, st2, rfl, hemit,
                  warpToBox (heapGet st.H a) wx0 wx1 wy0 wy1, hH, item, hitems, hlab⟩

/-- The output loop never raises the degenerate-extent error, and the heap at
any address outside the clone id list is untouched. -/
theorem svgLoop_facts (ctx : SvgCtx) (ids : List Nat)
    (bbs : List (ℚ × ℚ × ℚ × ℚ)) :
    ∀ (fuel i : Nat) (st : SvgState),
      (∀ e st2, svgLoop ctx ids bbs i fuel st = (some e, st2) → e ≠ .degenerateExtent)
        ∧ ∀ b, (∀ a ∈ ids, b ≠ a) →
            heapGet (svgLoop ctx ids bbs i fuel st).2.H b = heapGet st.H b := by
  intro fuel
  induction fuel with
  | zero =>
    intro i st
    constructor
    · intro e st2 h
      have h2 : ((none : Option ExpErr), st) = (some e, st2) := h
      rw [Prod.mk.injEq] at h2
      cases h2.1
    · intro b hb
      rfl
  | succ n ih =>
    intro i st
    rcases svgStep_cases ctx ids bbs i st with
      ⟨e, st2, hstep, hne, hheap, hitems⟩ |
      ⟨a, st2, hga, hstep, pw, hH, item, hitems, hlab⟩
    · constructor
      · intro e2 st3 h
        rw [svgLoop, hstep] at h
        have h2 : ((some e : Option ExpErr), st2) = (some e2, st3) := h
        rw [Prod.mk.injEq, Option.some_inj] at h2
        exact h2.1 ▸ hne
      · intro b hb
        rw [svgLoop, hstep]
        show heapGet st2.H b = heapGet st.H b
        rcases hheap with h | ⟨a, pw, hga, hH⟩
        · rw [h]
        · rw [hH]
          exact heapGet_set_ne _ _ _ _ (Ne.symm (hb a (List.get?_mem hga)))
    · constructor
      · intro e2 st3 h
        rw [svgLoop, hstep] at h
        exact (ih (i + 1) st2).1 e2 st3 h
      · intro b hb
        rw [svgLoop, hstep]
        show heapGet (svgLoop ctx ids bbs (i + 1) n st2).2.H b = heapGet st.H b
        rw [(ih (i + 1) st2).2 b hb, hH]
        exact heapGet_set_ne _ _ _ _ (Ne.symm (hb a (List.get?_mem hga)))

/-- Success analysis of the output loop under labels without explicit
coordinates: the heap keeps its length, exactly one item per polygon is
appended (earlier items untouched), untouched addresses keep their content,
and the k-th new item's label is anchored at the centroid of the final (warped)
clone at `ids[i+k]`. -/
theorem svgLoop_labels (ctx : SvgCtx) (ids : List Nat)
    (bbs : List (ℚ × ℚ × ℚ × ℚ)) (ls : List String)
    (hl : ctx.labels = some ls) (hc : truthyList ctx.coords = false)
    (hinj : ∀ j k a, ids.get? j = some a → ids.get? k = some a → j = k) :
    ∀ (fuel i : Nat) (st st2 : SvgState),
      svgLoop ctx ids bbs i fuel st = (none, st2) →
      (∀ x ∈ ids, x < st.H.length) →
      st2.H.length = st.H.length
        ∧ st2.items.length = st.items.length + fuel
        ∧ (∀ idx, idx < st.items.length → st2.items.get? idx = st.items.get? idx)
        ∧ (∀ b, (∀ j, i ≤ j → ids.get? j ≠ some b) →
            heapGet st2.H b = heapGet st.H b)
        ∧ ∀ k, k < fuel → ∃ a it,
            ids.get? (i + k) = some a
              ∧ st2.items.get? (st.items.length + k) = some it
              ∧ it.label = some (ctx.center (heapGet st2.H a),
                  ls.getD (i + k) "", ctx.centered) := by
  intro fuel
  induction fuel with
  | zero =>
    intro i st st2 h hlen
    have h2 : ((none : Option ExpErr), st) = (none, st2) := h
    rw [Prod.mk.injEq] at h2
    rw [← h2.2]
    exact ⟨rfl, rfl, fun idx _ => rfl, fun b _ => rfl, fun k hk => absurd hk (by omega)⟩
  | succ n ih =>
    intro i st st2 h hlen
    rcases svgStep_cases ctx ids bbs i st with
      ⟨e, st1, hstep, _, _, _⟩ |
      ⟨a, st1, hga, hstep, pw, hH, item, hitems, hlab⟩
    · rw [svgLoop, hstep] at h
      have h2 : ((some e : Option ExpErr), st1) = (none, st2) := h
      rw [Prod.mk.injEq] at h2
      cases h2.1
    · rw [svgLoop, hstep] at h
      have hrec := ih (i + 1) st1 st2 h (by
        intro x hx
        rw [hH, heapSet_length]
        exact hlen x hx)
      obtain ⟨hlen2, hitems2, hstable, hkeep, hlabels⟩ := hrec
      have hstH : st1.H.length = st.H.length := by rw [hH, heapSet_length]
      have halen : a < st.H.length := hlen a (List.get?_mem hga)
      have hkeepa : heapGet st2.H a = pw := by
        have hk := hkeep a (by
          intro j hj hj2
          have := hinj j i a hj2 hga
          omega)
        rw [hk, hH, heapGet_set_self _ _ _ halen]
      obtain ⟨txt, htxt, hilabel⟩ := hlab ls hl hc
      refine ⟨by rw [hlen2, hstH], ?_, ?_, ?_, ?_⟩
      · rw [hitems2, hitems, List.length_append]
        simp
        omega
      · intro idx hidx
        rw [hstable idx (by rw [hitems, List.length_append]; omega), hitems,
          List.get?_append hidx]
      · intro b hb
        have hk := hkeep b (fun j hj => hb j (by omega))
        rw [hk, hH]
        refine heapGet_set_ne _ _ _ _ ?_
        intro hab
        exact hb i (le_refl i) (hab ▸ hga)
      · intro k hk
        cases k with
        | zero =>
          refine ⟨a, item, by rw [Nat.add_zero]; exact hga, ?_, ?_⟩
          · rw [Nat.add_zero,
              hstable (st.items.length) (by rw [hitems, List.length_append]; simp),
              hitems, List.get?_concat_length]
          · rw [hkeepa, hilabel, Nat.add_zero]
            have : ls.getD i "" = txt := by
              unfold List.getD
              rw [htxt]
              rfl
            rw [this]
        | succ k2 =>
          obtain ⟨a2, it2, hga2, hit2, hlab2⟩ := hlabels k2 (by omega)
          refine ⟨a2, it2, ?_, ?_, ?_⟩
          · rw [show i + (k2 + 1) = i + 1 + k2 from by omega]
            exact hga2
          · rw [show st.items.length + (k2 + 1) = st1.items.length + k2 from by
              rw [hitems, List.length_append]; simp; omega]
            exact hit2
          · rw [show i + (k2 + 1) = i + 1 + k2 from by omega]
            exact hlab2

theorem truthyQ_some {o : Option ℚ} (h : truthyQ o = true) :
    ∃ v, o = some v ∧ v ≠ 0 := by
  cases o with
  | none => cases h
  | some v =>
    refine ⟨v, rfl, ?_⟩
    simpa [truthyQ] using h

/-- The width/height resolution either succeeds or raises ZeroDivisionError
(possible only for aspect ratio 0); the TypeError of formatting `None` is
unreachable. -/
theorem truthyQ_some_eq (v : ℚ) : truthyQ (some v) = (v != 0) := rfl

theorem resolveDims_spec (width height : Option ℚ) (a : ℚ) :
    (∃ wh, resolveDims width height a = .ok wh)
      ∨ (resolveDims width height a = .error .zeroDivisionError ∧ a = 0) := by
  by_cases hw : truthyQ width = true
  · obtain ⟨wv, hwv, hwv0⟩ := truthyQ_some hw
    by_cases hh : truthyQ height = true
    · obtain ⟨hv, hhv, hhv0⟩ := truthyQ_some hh
      left
      refine ⟨(wv, hv), ?_⟩
      unfold resolveDims
      rw [hw, hh, hwv, hhv]
      simp [truthyQ_some_eq, hwv0, hhv0]
    · have hh' : truthyQ height = false := Bool.eq_false_iff.mpr hh
      left
      refine ⟨(wv, wv * a), ?_⟩
      unfold resolveDims
      rw [hw, hh', hwv]
      simp [truthyQ_some_eq, hwv0, hh']
  · have hw' : truthyQ width = false := Bool.eq_false_iff.mpr hw
    by_cases hh : truthyQ height = true
    · obtain ⟨hv, hhv, hhv0⟩ := truthyQ_some hh
      by_cases ha : a = 0
      · right
        refine ⟨?_, ha⟩
        unfold resolveDims
        rw [hw', hh, hhv, ha]
        simp [truthyQ_some_eq, hhv0, hw', pydiv_zero, bind_error]
      · left
        refine ⟨(hv / a, hv), ?_⟩
        unfold resolveDims
        rw [hw', hh, hhv]
        simp [truthyQ_some_eq, hhv0, hw', pydiv_ok _ _ ha, bind_ok]
    · have hh' : truthyQ height = false := Bool.eq_false_iff.mpr hh
      by_cases ha1 : a < 1
      · left
        refine ⟨(300, 300 * a), ?_⟩
        unfold resolveDims
        rw [hw', hh']
        simp [truthyQ_some_eq, ha1, hh', hw']
      · by_cases ha : a = 0
        · exact absurd (ha ▸ (by norm_num : (0:ℚ) < 1)) ha1
        · left
          refine ⟨(300 / a, 300), ?_⟩
          unfold resolveDims
          rw [hw', hh']
          simp [truthyQ_some_eq, ha1, hh', hw', pydiv_ok _ _ ha, bind_ok]

/-- The PDF warp loop only ever writes to addresses drawn from `ids`: every
other heap cell is preserved, whether the loop succeeds or fails. -/
theorem pdfWarpLoop_keep (minx miny xdim ydim w h : ℚ) (ids : List Nat)
    (bbs : List (ℚ × ℚ × ℚ × ℚ)) :
    ∀ (fuel i : Nat) (H : Heap) (b : Nat), (∀ a ∈ ids, b ≠ a) →
      heapGet (pdfWarpLoop minx miny xdim ydim w h ids bbs i fuel H).2 b
        = heapGet H b := by
  intro fuel
  induction fuel with
  | zero => intro i H b hb; rfl
  | succ n ih =>
    intro i H b hb
    rw [pdfWarpLoop]
    cases hai : ids.get? i with
    | none => cases bbs.get? i <;> rfl
    | some a =>
      cases hbi : bbs.get? i with
      | none => rfl
      | some bb =>
        dsimp only
        cases hq0 : pydiv (w * (bb.1 - minx)) xdim with
        | error e => rfl
        | ok wx0 =>
          dsimp only
          cases hq1 : pydiv (w * (bb.2.1 - minx)) xdim with
          | error e => rfl
          | ok wx1 =>
            dsimp only
            cases hq2 : pydiv (h * (bb.2.2.1 - miny)) ydim with
            | error e => rfl
            | ok wy0 =>
              dsimp only
              cases hq3 : pydiv (h * (bb.2.2.2 - miny)) ydim with
              | error e => rfl
              | ok wy1 =>
                dsimp only
                rw [ih (i + 1) _ b hb]
                exact heapGet_set_ne _ _ _ _
                  (Ne.symm (hb a (List.get?_mem hai)))

theorem svgLoop_keep (ctx : SvgCtx) (ids : List Nat)
    (bbs : List (ℚ × ℚ × ℚ × ℚ)) (fuel i : Nat) (st : SvgState)
    (r : Option ExpErr × SvgState) (h : svgLoop ctx ids bbs i fuel st = r)
    (b : Nat) (hb : ∀ a ∈ ids, b ≠ a) :
    heapGet r.2.H b = heapGet st.H b := by
  rw [← h]
  exact (svgLoop_facts ctx ids bbs fuel i st).2 b hb

theorem pdfWarpLoop_keep2 (minx miny xdim ydim w h : ℚ) (ids : List Nat)
    (bbs : List (ℚ × ℚ × ℚ × ℚ)) (fuel i : Nat) (H : Heap)
    (r : Option ExpErr × Heap)
    (hr : pdfWarpLoop minx miny xdim ydim w h ids bbs i fuel H = r)
    (b : Nat) (hb : ∀ a ∈ ids, b ≠ a) :
    heapGet r.2 b = heapGet H b := by
  rw [← hr]
  exact pdfWarpLoop_keep minx miny xdim ydim w h ids bbs fuel i H b hb

/-- `writeSVG` never changes the caller's polygons: every address of the
original heap keeps its contents, on success and on every error exit. -/
theorem writeSVG_keep (center : QPoly → ℚ × ℚ) (H : Heap) (polylist : List Nat)
    (width height : Option ℚ)
    (fc : Option (List Color)) (fo : Option (List ℚ))
    (sc : Option (List Color)) (sw : Option (List ℚ))
    (ls : Option (List String)) (lc : Option (List (ℚ × ℚ))) (cen : Bool)
    (b : Nat) (hb : b < H.length) :
    heapGet (writeSVG center H polylist width height fc fo sc sw ls lc cen).2 b
      = heapGet H b := by
  have hb_ne : ∀ a ∈ (List.range polylist.length).map (· + H.length), b ≠ a := by
    intro a ha
    have h2 := cloneIds_mem ha
    omega
  have hfus : flopAll (H ++ polylist.map (heapGet H))
      ((List.range polylist.length).map (· + H.length))
      = H ++ (polylist.map (heapGet H)).map (flopPoly 0) := by
    have h2 := flopAll_allocClones H (polylist.map (heapGet H))
    rwa [List.length_map] at h2
  have hkeep : heapGet (H ++ (polylist.map (heapGet H)).map (flopPoly 0)) b
      = heapGet H b := heapGet_append_left _ _ _ hb
  unfold writeSVG allocClones
  dsimp only
  rw [hfus]
  repeat' (first | split | dsimp only)
  all_goals first
    | exact hkeep
    | (rename_i heq
       exact (svgLoop_keep _ _ _ _ _ _ _ heq b hb_ne).trans hkeep)

/-- `writePDF` never changes the caller's polygons either. -/
theorem writePDF_keep (H : Heap) (polylist : List Nat)
    (pagesize : Option (ℚ × ℚ)) (fc : Option (List RLColor))
    (b : Nat) (hb : b < H.length) :
    heapGet (writePDF H polylist pagesize fc).2 b = heapGet H b := by
  have hb_ne : ∀ a ∈ (List.range polylist.length).map (· + H.length), b ≠ a := by
    intro a ha
    have h2 := cloneIds_mem ha
    omega
  have hkeep : heapGet (H ++ polylist.map (heapGet H)) b = heapGet H b :=
    heapGet_append_left _ _ _ hb
  unfold writePDF allocClones
  dsimp only
  repeat' (first | split | dsimp only)
  all_goals first
    | exact hkeep
    | (rename_i heq
       exact (pdfWarpLoop_keep2 _ _ _ _ _ _ _ _ _ _ _ _ heq b
         hb_ne).trans hkeep)
    | (rename_i heq a2 a3 a4
       exact (pdfWarpLoop_keep2 _ _ _ _ _ _ _ _ _ _ _ _ heq b
         hb_ne).trans hkeep)

/-- C7: for every polygon collection, `writeSVG` and `writePDF` leave every
polygon of the caller's heap unchanged — the vertical flip and the
warp-to-box transform are applied only to the freshly allocated clones,
never to the caller's objects. -/
theorem exporters_leave_inputs_unchanged
    (center : QPoly → ℚ × ℚ) (H : Heap) (polylist : List Nat)
    (width height : Option ℚ)
    (fc : Option (List Color)) (fo : Option (List ℚ))
    (sc : Option (List Color)) (sw : Option (List ℚ))
    (ls : Option (List String)) (lc : Option (List (ℚ × ℚ))) (cen : Bool)
    (pagesize : Option (ℚ × ℚ)) (pfc : Option (List RLColor))
    (b : Nat) (hb : b < H.length) :
    heapGet (writeSVG center H polylist width height fc fo sc sw ls lc cen).2 b
        = heapGet H b
      ∧ heapGet (writePDF H polylist pagesize pfc).2 b = heapGet H b :=
  ⟨writeSVG_keep center H polylist width height fc fo sc sw ls lc cen b hb,
   writePDF_keep H polylist pagesize pfc b hb⟩

theorem exporters_leave_inputs_unchanged_witness :
    heapGet (writeSVG (fun _ => (0, 0)) [[⟨[(0, 0), (2, 0), (2, 2)], false⟩]]
          [0] none none none none none none none none false).2 0
        = heapGet [[⟨[(0, 0), (2, 0), (2, 2)], false⟩]] 0
      ∧ heapGet (writePDF [[⟨[(0, 0), (2, 0), (2, 2)], false⟩]] [0]
          none none).2 0
        = heapGet [[⟨[(0, 0), (2, 0), (2, 2)], false⟩]] 0 :=
  exporters_leave_inputs_unchanged (fun _ => (0, 0))
    [[⟨[(0, 0), (2, 0), (2, 2)], false⟩]] [0] none none none none none none
    none none false none none 0 (by decide)

theorem flopped_points_ne (H : Heap) (polylist : List Nat)
    (hv : ∀ a ∈ polylist, validPoly (heapGet H a)) :
    ∀ p ∈ (polylist.map (heapGet H)).map (flopPoly 0), polyPoints p ≠ [] := by
  intro p hp
  rw [List.mem_map] at hp
  obtain ⟨q, hq, rfl⟩ := hp
  rw [List.mem_map] at hq
  obtain ⟨a, ha, rfl⟩ := hq
  rw [polyPoints_flop]
  simp only [ne_eq, List.map_eq_nil]
  exact validPoly_points _ (hv a ha)

theorem collPoints_eq (H : Heap) (ids : List Nat) :
    (ids.map (heapGet H)).flatMap polyPoints = collPoints H ids := by
  rw [List.flatMap_map]
  rfl

theorem collPoints_ne (H : Heap) (ids : List Nat) (hne : ids ≠ [])
    (hv : ∀ a ∈ ids, validPoly (heapGet H a)) : collPoints H ids ≠ [] := by
  cases ids with
  | nil => exact absurd rfl hne
  | cons a rest =>
    unfold collPoints
    rw [List.flatMap_cons]
    intro hcon
    exact validPoly_points _ (hv a (by simp)) (List.append_eq_nil.mp hcon).1

/-- The x-condition computed by `writeSVG` over the bounding boxes of the
flipped clones is zero exactly when the collection's aggregate x-extent is. -/
theorem svg_xdim_iff (H : Heap) (polylist : List Nat)
    (hne : polylist ≠ []) (hv : ∀ a ∈ polylist, validPoly (heapGet H a))
    (b0 : ℚ × ℚ × ℚ × ℚ) (brest : List (ℚ × ℚ × ℚ × ℚ))
    (hb : ((polylist.map (heapGet H)).map (flopPoly 0)).map bbox1
      = b0 :: brest) :
    ((brest.map (·.2.1)).foldl max b0.2.1 - (brest.map (·.1)).foldl min b0.1
        = 0)
      ↔ xExtent H polylist = 0 := by
  rw [xdim_zero_iff _ b0 brest hb (flopped_points_ne H polylist hv)]
  rw [xs_flop, collPoints_eq]
  exact (xExtent_zero_iff H polylist (collPoints_ne H polylist hne hv)).symm

/-- The y-condition of `writeSVG` (after the vertical flip): zero exactly
when the aggregate y-extent is. -/
theorem svg_ydim_iff (H : Heap) (polylist : List Nat)
    (hne : polylist ≠ []) (hv : ∀ a ∈ polylist, validPoly (heapGet H a))
    (b0 : ℚ × ℚ × ℚ × ℚ) (brest : List (ℚ × ℚ × ℚ × ℚ))
    (hb : ((polylist.map (heapGet H)).map (flopPoly 0)).map bbox1
      = b0 :: brest) :
    ((brest.map (·.2.2.2)).foldl max b0.2.2.2
        - (brest.map (·.2.2.1)).foldl min b0.2.2.1 = 0)
      ↔ yExtent H polylist = 0 := by
  rw [ydim_zero_iff _ b0 brest hb (flopped_points_ne H polylist hv)]
  rw [ys_flop, collPoints_eq, allEq_neg]
  exact (yExtent_zero_iff H polylist (collPoints_ne H polylist hne hv)).symm

/-- C5: for a non-empty collection of polygons with points, `writeSVG` fails
with DegenerateExtent exactly when both aggregate extents are zero; but with
a zero x-extent and a non-zero y-extent the export does NOT complete — the
aspect-ratio division `a = ydim/xdim` raises ZeroDivisionError. -/
theorem writeSVG_degenerate_iff (center : QPoly → ℚ × ℚ) (H : Heap)
    (polylist : List Nat) (width height : Option ℚ)
    (fc : Option (List Color)) (fo : Option (List ℚ))
    (sc : Option (List Color)) (sw : Option (List ℚ))
    (ls : Option (List String)) (lc : Option (List (ℚ × ℚ))) (cen : Bool)
    (hne : polylist ≠ []) (hv : ∀ a ∈ polylist, validPoly (heapGet H a)) :
    ((writeSVG center H polylist width height fc fo sc sw ls lc cen).1
        = .error .degenerateExtent
      ↔ xExtent H polylist = 0 ∧ yExtent H polylist = 0)
    ∧ (xExtent H polylist = 0 → yExtent H polylist ≠ 0 →
        (writeSVG center H polylist width height fc fo sc sw ls lc cen).1
          = .error .zeroDivisionError) := by
  have hfus : flopAll (H ++ polylist.map (heapGet H))
      ((List.range polylist.length).map (· + H.length))
      = H ++ (polylist.map (heapGet H)).map (flopPoly 0) := by
    have h2 := flopAll_allocClones H (polylist.map (heapGet H))
    rwa [List.length_map] at h2
  have hbbs : bbsOf (H ++ (polylist.map (heapGet H)).map (flopPoly 0))
      ((List.range polylist.length).map (· + H.length))
      = some (((polylist.map (heapGet H)).map (flopPoly 0)).map bbox1) := by
    have h2 := bbsOf_append H ((polylist.map (heapGet H)).map (flopPoly 0))
    rw [List.length_map, List.length_map] at h2
    rw [h2]
    exact bbList_valid _ (flopped_points_ne H polylist hv)
  unfold writeSVG allocClones
  dsimp only
  rw [hfus, hbbs]
  cases hshape : ((polylist.map (heapGet H)).map (flopPoly 0)).map bbox1 with
  | nil =>
    rw [List.map_eq_nil, List.map_eq_nil, List.map_eq_nil] at hshape
    exact absurd hshape hne
  | cons b0 brest =>
    dsimp only
    have hx := svg_xdim_iff H polylist hne hv b0 brest hshape
    have hy := svg_ydim_iff H polylist hne hv b0 brest hshape
    by_cases hc : ((brest.map (·.2.1)).foldl max b0.2.1
          - (brest.map (·.1)).foldl min b0.1 = 0)
        ∧ ((brest.map (·.2.2.2)).foldl max b0.2.2.2
          - (brest.map (·.2.2.1)).foldl min b0.2.2.1 = 0)
    · rw [if_pos hc]
      exact ⟨iff_of_true rfl ⟨hx.mp hc.1, hy.mp hc.2⟩,
        fun _ hyz => absurd (hy.mp hc.2) hyz⟩
    · rw [if_neg hc]
      constructor
      · apply iff_of_false
        · cases hpd : pydiv
              ((brest.map (·.2.2.2)).foldl max b0.2.2.2
                - (brest.map (·.2.2.1)).foldl min b0.2.2.1)
              ((brest.map (·.2.1)).foldl max b0.2.1
                - (brest.map (·.1)).foldl min b0.1) with
          | error e =>
            intro h
            have h2 : (Except.error e : Except ExpErr (List SVGItem))
                = Except.error ExpErr.degenerateExtent := h
            rw [Except.error.injEq] at h2
            subst h2
            cases (pydiv_error _ _ _ hpd).1
          | ok a =>
            dsimp only
            cases hrd : resolveDims width height a with
            | error e =>
              intro h
              have h2 : (Except.error e : Except ExpErr (List SVGItem))
                  = Except.error ExpErr.degenerateExtent := h
              rw [Except.error.injEq] at h2
              subst h2
              rcases resolveDims_spec width height a with ⟨wh, hok⟩ | ⟨herr, _⟩
              · rw [hok] at hrd
                cases hrd
              · have h3 := hrd.symm.trans herr
                rw [Except.error.injEq] at h3
                cases h3
            | ok wh =>
              dsimp only
              cases hcl : checkLabels
                  ((List.range polylist.length).map (· + H.length)).length
                  ls lc with
              | error e =>
                intro h
                have h2 : (Except.error e : Except ExpErr (List SVGItem))
                    = Except.error ExpErr.degenerateExtent := h
                rw [Except.error.injEq] at h2
                subst h2
                rcases checkLabels_error _ _ _ _ hcl with h3 | h3 <;> cases h3
              | ok u =>
                dsimp only
                cases hlp : svgLoop
                    ⟨center,
                      (brest.map (·.1)).foldl min b0.1,
                      (brest.map (·.2.2.1)).foldl min b0.2.2.1,
                      (brest.map (·.2.1)).foldl max b0.2.1
                        - (brest.map (·.1)).foldl min b0.1,
                      (brest.map (·.2.2.2)).foldl max b0.2.2.2
                        - (brest.map (·.2.2.1)).foldl min b0.2.2.1,
                      wh.1, wh.2, effLabels ls, lc, cen⟩
                    ((List.range polylist.length).map (· + H.length))
                    (b0 :: brest) 0
                    ((List.range polylist.length).map (· + H.length)).length
                    ⟨H ++ (polylist.map (heapGet H)).map (flopPoly 0),
                      RingBuffer.ofSeq (styleOr fc default_colors),
                      RingBuffer.ofSeq (styleOr fo [1]),
                      RingBuffer.ofSeq (styleOr sc [(0, 0, 0)]),
                      RingBuffer.ofSeq (styleOr sw [1]), []⟩ with
                | mk p1 p2 =>
                  cases p1 with
                  | none =>
                    intro h
                    cases h
                  | some e =>
                    intro h
                    have h2 : (Except.error e : Except ExpErr (List SVGItem))
                        = Except.error ExpErr.degenerateExtent := h
                    rw [Except.error.injEq] at h2
                    exact (svgLoop_facts _ _ _ _ _ _).1 e p2 hlp h2
        · intro hcon
          exact hc ⟨hx.mpr hcon.1, hy.mpr hcon.2⟩
      · intro hxz hyz
        have hxc : (brest.map (·.2.1)).foldl max b0.2.1
            - (brest.map (·.1)).foldl min b0.1 = 0 := hx.mpr hxz
        rw [hxc, pydiv_zero]

theorem writeSVG_degenerate_iff_witness :
    (([0] : List Nat) ≠ []
        ∧ ∀ a ∈ ([0] : List Nat),
            validPoly (heapGet [[⟨[(1, 1), (1, 1), (1, 1)], false⟩]] a))
      ∧ (((writeSVG (fun _ => (0, 0)) [[⟨[(1, 1), (1, 1), (1, 1)], false⟩]]
              [0] none none none none none none none none false).1
            = .error .degenerateExtent
          ↔ xExtent [[⟨[(1, 1), (1, 1), (1, 1)], false⟩]] [0] = 0
              ∧ yExtent [[⟨[(1, 1), (1, 1), (1, 1)], false⟩]] [0] = 0)
        ∧ (xExtent [[⟨[(1, 1), (1, 1), (1, 1)], false⟩]] [0] = 0 →
            yExtent [[⟨[(1, 1), (1, 1), (1, 1)], false⟩]] [0] ≠ 0 →
            (writeSVG (fun _ => (0, 0)) [[⟨[(1, 1), (1, 1), (1, 1)], false⟩]]
                [0] none none none none none none none none false).1
              = .error .zeroDivisionError)) := by
  have hne : ([0] : List Nat) ≠ [] := by decide
  have hv : ∀ a ∈ ([0] : List Nat),
      validPoly (heapGet [[⟨[(1, 1), (1, 1), (1, 1)], false⟩]] a) := by
    intro a ha
    rw [List.mem_singleton] at ha
    subst ha
    show validPoly [⟨[(1, 1), (1, 1), (1, 1)], false⟩]
    exact ⟨by decide, by decide⟩
  exact ⟨⟨hne, hv⟩,
    writeSVG_degenerate_iff (fun _ => (0, 0))
      [[⟨[(1, 1), (1, 1), (1, 1)], false⟩]] [0] none none none none none none
      none none false hne hv⟩

/-- C5 counterexample: with exactly one zero extent the export does not
complete — `writeSVG` raises ZeroDivisionError (zero x-extent on a vertical
segment, and symmetrically zero y-extent on a horizontal segment). -/
theorem writeSVG_one_zero_extent_fails :
    (xExtent [[⟨[(0, 0), (0, 1), (0, 2)], false⟩]] [0] = 0
      ∧ yExtent [[⟨[(0, 0), (0, 1), (0, 2)], false⟩]] [0] ≠ 0
      ∧ (writeSVG (fun _ => (0, 0)) [[⟨[(0, 0), (0, 1), (0, 2)], false⟩]] [0]
          none none none none none none none none false).1
        = .error .zeroDivisionError)
    ∧ (yExtent [[⟨[(0, 0), (1, 0), (2, 0)], false⟩]] [0] = 0
      ∧ xExtent [[⟨[(0, 0), (1, 0), (2, 0)], false⟩]] [0] ≠ 0
      ∧ (writeSVG (fun _ => (0, 0)) [[⟨[(0, 0), (1, 0), (2, 0)], false⟩]] [0]
          none none none none none none none none false).1
        = .error .zeroDivisionError) :=
  ⟨⟨by with_unfolding_all decide, by with_unfolding_all decide,
    by with_unfolding_all rfl⟩,
   ⟨by with_unfolding_all decide, by with_unfolding_all decide,
    by with_unfolding_all rfl⟩⟩

theorem checkLabels_count (npoly : Nat) (ls : List String)
    (coords : Option (List (ℚ × ℚ))) (h1 : ls ≠ []) (h2 : ls.length ≠ npoly) :
    checkLabels npoly (some ls) coords = .error .labelCountMismatch := by
  rw [checkLabels]
  rw [if_pos (fun h => h1 (List.length_eq_zero.mp h)), if_pos h2]

theorem checkLabels_coord (npoly : Nat) (ls : List String)
    (cs : List (ℚ × ℚ)) (h1 : ls ≠ []) (h2 : ls.length = npoly)
    (h3 : cs ≠ []) (h4 : cs.length ≠ ls.length) :
    checkLabels npoly (some ls) (some cs) = .error .labelCoordMismatch := by
  rw [checkLabels]
  rw [if_pos (fun h => h1 (List.length_eq_zero.mp h)), if_neg (fun h => h h2)]
  have hcond : (truthyList (some cs)
      && (((some cs : Option (List (ℚ × ℚ))).getD []).length != ls.length))
      = true := by
    simp [truthyList, List.isEmpty_iff, bne_iff_ne]
    exact ⟨h3, h4⟩
  rw [if_pos hcond]

theorem checkLabels_ok (npoly : Nat) (ls : List String)
    (h2 : ls.length = npoly) : checkLabels npoly (some ls) none = .ok () := by
  rw [checkLabels]
  by_cases h0 : ls.length ≠ 0
  · rw [if_pos h0, if_neg (fun h => h h2),
      if_neg (by simp [truthyList] : ¬ (truthyList (none : Option (List (ℚ × ℚ)))
        && (((none : Option (List (ℚ × ℚ))).getD []).length != ls.length))
        = true)]
  · rw [if_neg h0]

theorem cloneIds_inj (n L : Nat) :
    ∀ j k a, ((List.range n).map (· + L)).get? j = some a →
      ((List.range n).map (· + L)).get? k = some a → j = k := by
  intro j k a hj hk
  have hjn : j < n := by
    by_contra hcj
    have h0 : ((List.range n).map (· + L)).get? j = none :=
      List.get?_eq_none.mpr (by rw [List.length_map, List.length_range]; omega)
    rw [h0] at hj
    cases hj
  have hkn : k < n := by
    by_contra hck
    have h0 : ((List.range n).map (· + L)).get? k = none :=
      List.get?_eq_none.mpr (by rw [List.length_map, List.length_range]; omega)
    rw [h0] at hk
    cases hk
  rw [cloneIds_get? hjn] at hj
  rw [cloneIds_get? hkn] at hk
  rw [Option.some_inj] at hj hk
  omega

/-- C6 (amended): when both extents are non-zero, a NON-EMPTY label list of
the wrong count raises LabelCountMismatch, a non-empty coordinate list of the
wrong length raises LabelCoordMismatch, and on success with labels and no
coordinates each emitted item is anchored at the centroid of its polygon's
final (warped) clone.  An empty label (or coordinate) list is falsy in Python
and silently bypasses these checks. -/
theorem writeSVG_label_rules (center : QPoly → ℚ × ℚ) (H : Heap)
    (polylist : List Nat) (width height : Option ℚ)
    (fc : Option (List Color)) (fo : Option (List ℚ))
    (sc : Option (List Color)) (sw : Option (List ℚ))
    (ls : List String) (cs : List (ℚ × ℚ)) (lcOpt : Option (List (ℚ × ℚ)))
    (cen : Bool)
    (hne : polylist ≠ []) (hv : ∀ a ∈ polylist, validPoly (heapGet H a))
    (hx : xExtent H polylist ≠ 0) (hy : yExtent H polylist ≠ 0) :
    (ls ≠ [] → ls.length ≠ polylist.length →
      (writeSVG center H polylist width height fc fo sc sw (some ls) lcOpt
          cen).1 = .error .labelCountMismatch)
    ∧ (ls ≠ [] → ls.length = polylist.length → cs ≠ [] →
        cs.length ≠ ls.length →
        (writeSVG center H polylist width height fc fo sc sw (some ls)
            (some cs) cen).1 = .error .labelCoordMismatch)
    ∧ (∀ items, ls ≠ [] → ls.length = polylist.length →
        (writeSVG center H polylist width height fc fo sc sw (some ls) none
            cen).1 = .ok items →
        ∀ k, k < items.length → ∃ it,
          items.get? k = some it
            ∧ it.label = some
                (center (heapGet
                  (writeSVG center H polylist width height fc fo sc sw
                    (some ls) none cen).2 (k + H.length)),
                 ls.getD k "", cen)) := by
  have hfus : flopAll (H ++ polylist.map (heapGet H))
      ((List.range polylist.length).map (· + H.length))
      = H ++ (polylist.map (heapGet H)).map (flopPoly 0) := by
    have h2 := flopAll_allocClones H (polylist.map (heapGet H))
    rwa [List.length_map] at h2
  have hbbs : bbsOf (H ++ (polylist.map (heapGet H)).map (flopPoly 0))
      ((List.range polylist.length).map (· + H.length))
      = some (((polylist.map (heapGet H)).map (flopPoly 0)).map bbox1) := by
    have h2 := bbsOf_append H ((polylist.map (heapGet H)).map (flopPoly 0))
    rw [List.length_map, List.length_map] at h2
    rw [h2]
    exact bbList_valid _ (flopped_points_ne H polylist hv)
  have hnp : ((List.range polylist.length).map (· + H.length)).length
      = polylist.length := by
    rw [List.length_map, List.length_range]
  unfold writeSVG allocClones
  dsimp only
  rw [hfus, hbbs]
  cases hshape : ((polylist.map (heapGet H)).map (flopPoly 0)).map bbox1 with
  | nil =>
    rw [List.map_eq_nil, List.map_eq_nil, List.map_eq_nil] at hshape
    exact absurd hshape hne
  | cons b0 brest =>
    dsimp only
    have hxc0 : (brest.map (·.2.1)).foldl max b0.2.1
        - (brest.map (·.1)).foldl min b0.1 ≠ 0 :=
      fun h => hx ((svg_xdim_iff H polylist hne hv b0 brest hshape).mp h)
    have hyc0 : (brest.map (·.2.2.2)).foldl max b0.2.2.2
        - (brest.map (·.2.2.1)).foldl min b0.2.2.1 ≠ 0 :=
      fun h => hy ((svg_ydim_iff H polylist hne hv b0 brest hshape).mp h)
    rw [if_neg (fun hcc => hxc0 hcc.1), if_neg (fun hcc => hxc0 hcc.1),
      if_neg (fun hcc => hxc0 hcc.1)]
    rw [pydiv_ok _ _ hxc0]
    dsimp only
    rcases resolveDims_spec width height
        (((brest.map (·.2.2.2)).foldl max b0.2.2.2
            - (brest.map (·.2.2.1)).foldl min b0.2.2.1)
          / ((brest.map (·.2.1)).foldl max b0.2.1
            - (brest.map (·.1)).foldl min b0.1)) with
      ⟨wh, hok⟩ | ⟨_, ha0⟩
    · rw [hok]
      dsimp only
      rw [hnp]
      refine ⟨?_, ?_, ?_⟩
      · intro h1 h2
        rw [checkLabels_count polylist.length ls lcOpt h1 h2]
      · intro h1 h2 h3 h4
        rw [checkLabels_coord polylist.length ls cs h1 h2 h3 h4]
      · intro items h1 h2
        rw [checkLabels_ok polylist.length ls h2]
        dsimp only
        have hl : effLabels (some ls) = some ls := by
          simp [effLabels, h1]
        have hlen : ∀ x ∈ (List.range polylist.length).map (· + H.length),
            x < (H ++ (polylist.map (heapGet H)).map (flopPoly 0)).length := by
          intro x hxm
          rw [List.mem_map] at hxm
          obtain ⟨j, hj, rfl⟩ := hxm
          rw [List.mem_range] at hj
          rw [List.length_append, List.length_map, List.length_map]
          omega
        split
        · intro h
          cases h
        · rename_i st2 heq
          intro hOK k hk
          have hOK2 : (Except.ok st2.items : Except ExpErr (List SVGItem))
              = .ok items := hOK
          rw [Except.ok.injEq] at hOK2
          obtain ⟨hHlen, hilen, hold, hkeep, hlab⟩ :=
            svgLoop_labels _ _ _ ls hl (by rfl)
              (cloneIds_inj polylist.length H.length) polylist.length 0 _ st2
              heq hlen
          have hX : (⟨H ++ (polylist.map (heapGet H)).map (flopPoly 0),
              RingBuffer.ofSeq (styleOr fc default_colors),
              RingBuffer.ofSeq (styleOr fo [1]),
              RingBuffer.ofSeq (styleOr sc [(0, 0, 0)]),
              RingBuffer.ofSeq (styleOr sw [1]), []⟩
                : SvgState).items.length = 0 := rfl
          have hk2 : k < polylist.length := by
            rw [← hOK2] at hk
            omega
          obtain ⟨a, it, hga, hgi, hl2⟩ := hlab k hk2
          rw [Nat.zero_add] at hga
          rw [hX, Nat.zero_add] at hgi
          rw [Nat.zero_add] at hl2
          have ha2 : a = k + H.length := by
            have hcg := cloneIds_get? (L := H.length) hk2
            rw [hga] at hcg
            exact Option.some_inj.mp hcg
          subst ha2
          refine ⟨it, ?_, hl2⟩
          rw [← hOK2]
          exact hgi
    · exact absurd ha0 (div_ne_zero hyc0 hxc0)

theorem writeSVG_label_rules_witness :
    (([0] : List Nat) ≠ []
        ∧ (∀ a ∈ ([0] : List Nat),
            validPoly (heapGet [[⟨[(0, 0), (4, 0), (4, 4)], false⟩]] a))
        ∧ xExtent [[⟨[(0, 0), (4, 0), (4, 4)], false⟩]] [0] ≠ 0
        ∧ yExtent [[⟨[(0, 0), (4, 0), (4, 4)], false⟩]] [0] ≠ 0)
      ∧ (writeSVG (fun _ => (0, 0)) [[⟨[(0, 0), (4, 0), (4, 4)], false⟩]] [0]
          none none none none none none (some ["a", "b"]) none false).1
        = .error .labelCountMismatch := by
  have hne : ([0] : List Nat) ≠ [] := by decide
  have hv : ∀ a ∈ ([0] : List Nat),
      validPoly (heapGet [[⟨[(0, 0), (4, 0), (4, 4)], false⟩]] a) := by
    intro a ha
    rw [List.mem_singleton] at ha
    subst ha
    show validPoly [⟨[(0, 0), (4, 0), (4, 4)], false⟩]
    exact ⟨by decide, by decide⟩
  have hx : xExtent [[⟨[(0, 0), (4, 0), (4, 4)], false⟩]] [0] ≠ 0 := by
    with_unfolding_all decide
  have hy : yExtent [[⟨[(0, 0), (4, 0), (4, 4)], false⟩]] [0] ≠ 0 := by
    with_unfolding_all decide
  exact ⟨⟨hne, hv, hx, hy⟩,
    (writeSVG_label_rules (fun _ => (0, 0))
        [[⟨[(0, 0), (4, 0), (4, 4)], false⟩]] [0] none none none none none
        none ["a", "b"] [(1, 1)] none false hne hv hx hy).1
      (by decide) (by decide)⟩

/-- C6 counterexample: an empty label list IS supplied (`[]`, not None) and
its count 0 differs from the polygon count 1, yet `writeSVG` succeeds — the
truthiness test `if labels:` silently bypasses the count check, so the
claimed unconditional LabelCountMismatch does not hold. -/
theorem writeSVG_empty_labels_accepted :
    ([] : List String).length ≠ ([0] : List Nat).length
      ∧ ((writeSVG (fun _ => (0, 0)) [[⟨[(0, 0), (2, 0), (2, 2)], false⟩]]
          [0] none none none none none none (some []) none false).1).isOk
        = true :=
  ⟨by decide, by with_unfolding_all rfl⟩

end PolygonIO
